import Mathlib

/-! # Particle pool of the heart animation (`script.js`)

A shallow embedding of the particle lifecycle and of the circular-buffer pool
of `script.js`.  Numbers are taken in an arbitrary linearly ordered field `α`
(exact arithmetic: `ℚ` for evaluation, `ℝ` for the analytic statements), not
in IEEE doubles.  Operations that can throw in JavaScript (reading a field of
`undefined`) return `Except Fault _`; the one `while` loop of the script is run
with explicit fuel.
-/

set_option autoImplicit false

namespace Love

variable {α : Type} [LinearOrderedField α]

/-! ## Settings -/

/-- The record `settings.particles` of the script. -/
structure Settings (α : Type) where
  /-- maximum amount of particles -/
  length : Nat
  /-- particle duration in sec -/
  duration : α
  /-- particle velocity in pixels/sec -/
  velocity : α
  /-- play with this for a nice effect -/
  effect : α
  /-- particle size in pixels -/
  size : α
deriving DecidableEq

/-- The values the script configures. -/
def settings : Settings α :=
  { length := 500, duration := 2, velocity := 100, effect := -0.75, size := 30 }

/-! ## Point -/

/-- The class `Point`: two mutable coordinates. -/
structure Point (α : Type) where
  x : α
  y : α
deriving DecidableEq

/-- The constructor of `Point`: a missing (`undefined`) argument becomes `0`. -/
def Point.new (x y : Option α) : Point α :=
  { x := match x with
         | some v => v
         | none => 0,
    y := match y with
         | some v => v
         | none => 0 }

/-- The method `clone`: `new Point(this.x, this.y)`. -/
def Point.clone (p : Point α) : Point α :=
  Point.new (some p.x) (some p.y)

/-! ## Particle -/

/-- The class `Particle`. -/
structure Particle (α : Type) where
  position : Point α
  velocity : Point α
  acceleration : Point α
  age : α
deriving DecidableEq

/-- The constructor of `Particle`: three `new Point()` and age `0`. -/
def Particle.new : Particle α :=
  { position := Point.new none none,
    velocity := Point.new none none,
    acceleration := Point.new none none,
    age := 0 }

/-- The method `initialize(x, y, dx, dy)` of `Particle`, one assignment after
the other on the receiver `p`; `st.effect` is `settings.particles.effect`. -/
def Particle.initialise (st : Settings α) (p : Particle α) (x y dx dy : α) : Particle α :=
  let p := { p with position := { p.position with x := x } }
  let p := { p with position := { p.position with y := y } }
  let p := { p with velocity := { p.velocity with x := dx } }
  let p := { p with velocity := { p.velocity with y := dy } }
  let p := { p with acceleration := { p.acceleration with x := dx * st.effect } }
  let p := { p with acceleration := { p.acceleration with y := dy * st.effect } }
  { p with age := 0 }

/-- The method `update(deltaTime)` of `Particle`, one assignment after the
other on the receiver `p`. -/
def Particle.update (p : Particle α) (deltaTime : α) : Particle α :=
  let p := { p with position := { p.position with x := p.position.x + p.velocity.x * deltaTime } }
  let p := { p with position := { p.position with y := p.position.y + p.velocity.y * deltaTime } }
  let p := { p with velocity := { p.velocity with x := p.velocity.x + p.acceleration.x * deltaTime } }
  let p := { p with velocity := { p.velocity with y := p.velocity.y + p.acceleration.y * deltaTime } }
  { p with age := p.age + deltaTime }

/-- What one call of `Particle.draw` hands to the drawing context: the value
stored in `context.globalAlpha` and the four numeric arguments of
`context.drawImage`. -/
structure DrawCall (α : Type) where
  globalAlpha : α
  dx : α
  dy : α
  dWidth : α
  dHeight : α
deriving DecidableEq

/-- The local function `ease` of `Particle.draw`, `(t) => --t * t * t + 1`:
`--t` first decrements `t` and yields the decremented value, and the two later
reads of `t` see the decremented value too. -/
def ease (t : α) : α :=
  let t := t - 1
  t * t * t + 1

/-- The method `draw(context, image)` of `Particle`; `imageWidth` is
`image.width` and `st.duration` is `settings.particles.duration`. -/
def Particle.draw (st : Settings α) (p : Particle α) (imageWidth : α) : DrawCall α :=
  let size := imageWidth * ease (p.age / st.duration)
  { globalAlpha := 1 - p.age / st.duration,
    dx := p.position.x - size / 2,
    dy := p.position.y - size / 2,
    dWidth := size,
    dHeight := size }

/-! ## ParticlePool -/

/-- How a run of the pool's code can fail to produce a state: a property read
on `undefined` (a slot index outside the array), or the fuel of the `while`
loop used up. -/
inductive Fault where
  | typeError
  | outOfFuel
deriving DecidableEq

/-- The class `ParticlePool`. -/
structure ParticlePool (α : Type) where
  particles : List (Particle α)
  firstActive : Nat
  firstFree : Nat
  duration : α
deriving DecidableEq

/-- The constructor of `ParticlePool`: `length` fresh particles, both cursors
at `0`, the duration read from the settings. -/
def ParticlePool.new (st : Settings α) (length : Nat) : ParticlePool α :=
  { particles := List.replicate length Particle.new,
    firstActive := 0,
    firstFree := 0,
    duration := st.duration }

/-- The method `add(x, y, dx, dy)` of `ParticlePool`. -/
def ParticlePool.add (st : Settings α) (pool : ParticlePool α) (x y dx dy : α) :
    Except Fault (ParticlePool α) :=
  match pool.particles[pool.firstFree]? with
  | none => .error .typeError
  | some p =>
    let particles := pool.particles.set pool.firstFree (p.initialise st x y dx dy)
    let firstFree := pool.firstFree + 1
    let firstFree := if firstFree = particles.length then 0 else firstFree
    let firstActive := if pool.firstActive = firstFree then pool.firstActive + 1 else pool.firstActive
    let firstActive := if firstActive = particles.length then 0 else firstActive
    .ok { pool with particles := particles, firstActive := firstActive, firstFree := firstFree }

/-- A loop `for (i = a; i < b; i++) this.particles[i].update(deltaTime)` of
`ParticlePool.update`, given its start `i` and the number `b - a` of rounds
that are left. -/
def updateSlots (deltaTime : α) : List (Particle α) → Nat → Nat → Except Fault (List (Particle α))
  | ps, _, 0 => .ok ps
  | ps, i, k + 1 =>
    match ps[i]? with
    | none => .error .typeError
    | some p => updateSlots deltaTime (ps.set i (p.update deltaTime)) (i + 1) k

/-- The `while` loop at the end of `ParticlePool.update`, which moves
`firstActive`.  Every round of the body costs one unit of fuel; with no fuel
left the loop may still test its condition and leave. -/
def retire (ps : List (Particle α)) (duration : α) (firstFree : Nat) :
    Nat → Nat → Except Fault Nat
  | 0, firstActive =>
    match ps[firstActive]? with
    | none => .error .typeError
    | some p =>
      if duration ≤ p.age ∧ firstActive ≠ firstFree then .error .outOfFuel
      else .ok firstActive
  | fuel + 1, firstActive =>
    match ps[firstActive]? with
    | none => .error .typeError
    | some p =>
      if duration ≤ p.age ∧ firstActive ≠ firstFree then
        let firstActive := firstActive + 1
        let firstActive := if firstActive = ps.length then 0 else firstActive
        retire ps duration firstFree fuel firstActive
      else .ok firstActive

/-- The method `update(deltaTime)` of `ParticlePool`: the two guarded groups of
`for` loops, then the `while` loop. -/
def ParticlePool.update (fuel : Nat) (pool : ParticlePool α) (deltaTime : α) :
    Except Fault (ParticlePool α) := do
  let ps ←
    if pool.firstActive < pool.firstFree then
      updateSlots deltaTime pool.particles pool.firstActive (pool.firstFree - pool.firstActive)
    else pure pool.particles
  let ps ←
    if pool.firstFree < pool.firstActive then do
      let ps ← updateSlots deltaTime ps pool.firstActive (ps.length - pool.firstActive)
      updateSlots deltaTime ps 0 pool.firstFree
    else pure ps
  let firstActive ← retire ps pool.duration pool.firstFree fuel pool.firstActive
  pure { pool with particles := ps, firstActive := firstActive }

/-! ## The active window -/

/-- Number of slots of the circular slice `[firstActive, firstFree)` of a
buffer of `n` slots: `(firstFree - firstActive) mod n`. -/
def windowCount (n firstActive firstFree : Nat) : Nat :=
  (firstFree + n - firstActive) % n

/-- Index of the `k`-th slot of the circular slice that starts at
`firstActive`: `(firstActive + k) mod n`. -/
def windowIndex (n firstActive k : Nat) : Nat :=
  (firstActive + k) % n

/-- Slot `i` lies in the circular slice `[firstActive, firstFree)`. -/
def inWindow (n firstActive firstFree i : Nat) : Prop :=
  ∃ k, k < windowCount n firstActive firstFree ∧ windowIndex n firstActive k = i

instance (n firstActive firstFree i : Nat) : Decidable (inWindow n firstActive firstFree i) := by
  unfold inWindow
  infer_instance

/-- The age stored in slot `i` (`0` when there is no such slot). -/
def ageAt (ps : List (Particle α)) (i : Nat) : α :=
  match ps[i]? with
  | some p => p.age
  | none => 0

/-- Number of particles in the active window of a pool. -/
def ParticlePool.activeCount (pool : ParticlePool α) : Nat :=
  windowCount pool.particles.length pool.firstActive pool.firstFree

/-- Several calls of `add` in a row, one per entry `(x, y, dx, dy)` of the list. -/
def addAll (st : Settings α) : ParticlePool α → List (α × α × α × α) → Except Fault (ParticlePool α)
  | pool, [] => .ok pool
  | pool, (x, y, dx, dy) :: rest =>
    match pool.add st x y dx dy with
    | .error e => .error e
    | .ok pool => addAll st pool rest

/-- The states a pool of `length` slots reaches from its construction by calls
of `add` and of `update` with a non-negative `deltaTime`. -/
inductive Reachable (st : Settings α) (length : Nat) : ParticlePool α → Prop where
  | fresh : Reachable st length (ParticlePool.new st length)
  | add {pool pool' : ParticlePool α} (x y dx dy : α) :
      Reachable st length pool → pool.add st x y dx dy = .ok pool' → Reachable st length pool'
  | update {pool pool' : ParticlePool α} (fuel : Nat) (deltaTime : α) :
      Reachable st length pool → 0 ≤ deltaTime → pool.update fuel deltaTime = .ok pool' →
      Reachable st length pool'

/-- The invariant of the pool: both cursors index the array, no age is
negative, and the ages in the active window do not increase from `firstActive`
towards `firstFree`. -/
structure ParticlePool.Inv (pool : ParticlePool α) : Prop where
  firstActive_lt : pool.firstActive < pool.particles.length
  firstFree_lt : pool.firstFree < pool.particles.length
  age_nonneg : ∀ i, 0 ≤ ageAt pool.particles i
  sorted : ∀ k₁ k₂, k₁ ≤ k₂ → k₂ < pool.activeCount →
    ageAt pool.particles (windowIndex pool.particles.length pool.firstActive k₂) ≤
      ageAt pool.particles (windowIndex pool.particles.length pool.firstActive k₁)

/-! ## Sample states -/

/-- A particle as `initialize(0, 0, 1, 0)` leaves it under the script's settings. -/
def spark : Particle ℚ :=
  Particle.initialise settings Particle.new 0 0 1 0

/-- A pool of three slots after two calls `add(0, 0, 1, 0)`. -/
def twoAdded : ParticlePool ℚ :=
  { particles := [spark, spark, Particle.new], firstActive := 0, firstFree := 2, duration := 2 }

/-- The pool `twoAdded` after `update(1)`. -/
def twoAged : ParticlePool ℚ :=
  { particles := [spark.update 1, spark.update 1, Particle.new],
    firstActive := 0, firstFree := 2, duration := 2 }

/-! ## Vector length, the heart curve and the spawn of `render`

The library functions `Math.sqrt`, `Math.sin` and `Math.cos` and the constant
`Math.PI` are arguments of the definitions that call them; the theorems supply
`Real.sqrt`, `Real.sin`, `Real.cos` and `Real.pi`.  `Math.pow(s, 3)` is the
exact cube `s ^ 3`. -/

/-- The method `length()` of `Point`, called without an argument:
`Math.sqrt(this.x * this.x + this.y * this.y)`. -/
def Point.length (sqrt : α → α) (p : Point α) : α :=
  sqrt (p.x * p.x + p.y * p.y)

/-- The method `normalize()` of `Point`: both coordinates divided by the length
read first. -/
def Point.normalize (sqrt : α → α) (p : Point α) : Point α :=
  let length := p.length sqrt
  let p := { p with x := p.x / length }
  { p with y := p.y / length }

/-- The method `length(length)` of `Point`, called with an argument: normalize,
then scale both coordinates. -/
def Point.lengthTo (sqrt : α → α) (p : Point α) (length : α) : Point α :=
  let p := p.normalize sqrt
  let p := { p with x := p.x * length }
  { p with y := p.y * length }

/-- The function `pointOnHeart(t)`. -/
def pointOnHeart (sin cos : α → α) (t : α) : Point α :=
  Point.new
    (some (160 * sin t ^ 3))
    (some (130 * cos t - 50 * cos (2 * t) - 20 * cos (3 * t) - 10 * cos (4 * t) + 25))

/-- One round of the spawn loop of `render`: the four arguments it passes to
`particles.add`, given the value `random` that `Math.random()` returned and the
size of the canvas. -/
def renderSpawn (sqrt sin cos : α → α) (pi : α) (st : Settings α)
    (canvasWidth canvasHeight random : α) : α × α × α × α :=
  let pos := pointOnHeart sin cos (pi - 2 * pi * random)
  let dir := (pos.clone).lengthTo sqrt st.velocity
  (canvasWidth / 2 + pos.x, canvasHeight / 2 - pos.y, dir.x, -dir.y)

/-- Several calls of `Particle.update` in a row, one per entry of the list. -/
def Particle.updateAll : Particle α → List α → Particle α
  | p, [] => p
  | p, dt :: rest => Particle.updateAll (p.update dt) rest

/-- The states a pool of `length` slots reaches from its construction by calls
of `add` and of `update` with any `deltaTime`. -/
inductive ReachableAny (st : Settings α) (length : Nat) : ParticlePool α → Prop where
  | fresh : ReachableAny st length (ParticlePool.new st length)
  | add {pool pool' : ParticlePool α} (x y dx dy : α) :
      ReachableAny st length pool → pool.add st x y dx dy = .ok pool' →
      ReachableAny st length pool'
  | update {pool pool' : ParticlePool α} (fuel : Nat) (deltaTime : α) :
      ReachableAny st length pool → pool.update fuel deltaTime = .ok pool' →
      ReachableAny st length pool'

/-! ## More sample states -/

/-- A pool of three slots after one call `add(0, 0, 1, 0)`. -/
def oneAdded : ParticlePool ℚ :=
  { particles := [spark, Particle.new, Particle.new], firstActive := 0, firstFree := 1,
    duration := 2 }

/-- The pool `oneAdded` after `update(1/2)`. -/
def oneAged : ParticlePool ℚ :=
  { particles := [spark.update (1 / 2), Particle.new, Particle.new], firstActive := 0,
    firstFree := 1, duration := 2 }

/-- The pool `oneAged` after a second call `add(0, 0, 1, 0)`: two particles of
ages `1/2` and `0`. -/
def staggered : ParticlePool ℚ :=
  { particles := [spark.update (1 / 2), spark, Particle.new], firstActive := 0,
    firstFree := 2, duration := 2 }

/-- The pool `twoAdded` after `update(-1)`. -/
def rewound : ParticlePool ℚ :=
  { particles := [spark.update (-1), spark.update (-1), Particle.new],
    firstActive := 0, firstFree := 2, duration := 2 }

/-! # Theorems -/

/-! ## Arithmetic of the cursors -/

theorem windowCount_eq {n a f : Nat} (ha : a < n) (hf : f < n) :
    windowCount n a f = if a ≤ f then f - a else f + n - a := by
  unfold windowCount
  split_ifs with h
  · have : f + n - a = (f - a) + n := by omega
    rw [this, Nat.add_mod_right, Nat.mod_eq_of_lt (by omega)]
  · exact Nat.mod_eq_of_lt (by omega)

theorem windowIndex_eq {n a k : Nat} (ha : a < n) (hk : k < n) :
    windowIndex n a k = if a + k < n then a + k else a + k - n := by
  unfold windowIndex
  split_ifs with h
  · exact Nat.mod_eq_of_lt h
  · rw [Nat.mod_eq_sub_mod (by omega), Nat.mod_eq_of_lt (by omega)]

theorem windowCount_lt {n a f : Nat} (ha : a < n) : windowCount n a f < n :=
  Nat.mod_lt _ (by omega)

theorem windowIndex_lt {n a k : Nat} (hn : 0 < n) : windowIndex n a k < n :=
  Nat.mod_lt _ hn

theorem inWindow_iff {n a f i : Nat} (ha : a < n) (hf : f < n) (hi : i < n) :
    inWindow n a f i ↔ (a ≤ i ∧ i < f) ∨ (f < a ∧ (a ≤ i ∨ i < f)) := by
  unfold inWindow
  rw [windowCount_eq ha hf]
  constructor
  · rintro ⟨k, hk, rfl⟩
    have hkn : k < n := by split_ifs at hk <;> omega
    rw [windowIndex_eq ha hkn]
    split_ifs at hk ⊢ <;> omega
  · intro h
    by_cases hai : a ≤ i
    · refine ⟨i - a, by split_ifs <;> omega, ?_⟩
      rw [windowIndex_eq ha (by omega)]
      split_ifs <;> omega
    · refine ⟨i + n - a, by split_ifs <;> omega, ?_⟩
      rw [windowIndex_eq ha (by omega)]
      split_ifs <;> omega

theorem windowIndex_zero {n a : Nat} (ha : a < n) : windowIndex n a 0 = a := by
  simp [windowIndex, Nat.mod_eq_of_lt ha]

theorem windowIndex_succ (n a k : Nat) :
    windowIndex n a (k + 1) = windowIndex n (if a + 1 = n then 0 else a + 1) k := by
  unfold windowIndex
  split_ifs with h
  · have : a + (k + 1) = k + n := by omega
    rw [this, Nat.add_mod_right, Nat.zero_add]
  · congr 1
    omega

theorem windowIndex_count {n a f : Nat} (ha : a < n) (hf : f < n) :
    windowIndex n a (windowCount n a f) = f := by
  rw [windowIndex_eq ha (windowCount_lt ha), windowCount_eq ha hf]
  split_ifs <;> omega

theorem windowCount_eq_zero {n a f : Nat} (ha : a < n) (hf : f < n) :
    windowCount n a f = 0 ↔ a = f := by
  rw [windowCount_eq ha hf]
  split_ifs <;> omega

theorem windowCount_next {n a f : Nat} (ha : a < n) (hf : f < n) (h : a ≠ f) :
    windowCount n (if a + 1 = n then 0 else a + 1) f + 1 = windowCount n a f := by
  have ha' : (if a + 1 = n then 0 else a + 1) < n := by split_ifs <;> omega
  rw [windowCount_eq ha hf, windowCount_eq ha' hf]
  split_ifs <;> omega

theorem ageAt_of_getElem? {ps : List (Particle α)} {i : Nat} {p : Particle α}
    (h : ps[i]? = some p) : ageAt ps i = p.age := by
  simp [ageAt, h]

/-! ## The `for` loops of `update` -/

theorem updateSlots_spec (dt : α) :
    ∀ (k i : Nat) (ps : List (Particle α)), i + k ≤ ps.length →
      ∃ ps', updateSlots dt ps i k = .ok ps' ∧ ps'.length = ps.length ∧
        ∀ j, ps'[j]? = if i ≤ j ∧ j < i + k then (ps[j]?).map (fun p => p.update dt) else ps[j]? := by
  intro k
  induction k with
  | zero =>
    intro i ps _
    refine ⟨ps, rfl, rfl, fun j => ?_⟩
    rw [if_neg (by omega)]
  | succ k ih =>
    intro i ps h
    have hi : i < ps.length := by omega
    obtain ⟨ps', h1, h2, h3⟩ := ih (i + 1) (ps.set i ((ps[i]).update dt)) (by simp; omega)
    refine ⟨ps', ?_, by simpa using h2, fun j => ?_⟩
    · simp only [updateSlots, List.getElem?_eq_getElem hi]
      exact h1
    · rw [h3 j, List.getElem?_set]
      by_cases hij : i = j
      · subst hij
        simp [hi]
      · simp only [hij, if_false]
        by_cases hc : i + 1 ≤ j ∧ j < i + 1 + k
        · rw [if_pos hc, if_pos (by omega)]
        · rw [if_neg hc, if_neg (by omega)]

/-! ## The `while` loop of `update` -/

theorem retire_zero (ps : List (Particle α)) (D : α) (f a : Nat) :
    retire ps D f 0 a =
      match ps[a]? with
      | none => .error .typeError
      | some p => if D ≤ p.age ∧ a ≠ f then .error .outOfFuel else .ok a := by
  rfl

theorem retire_succ (ps : List (Particle α)) (D : α) (f fuel a : Nat) :
    retire ps D f (fuel + 1) a =
      match ps[a]? with
      | none => .error .typeError
      | some p =>
        if D ≤ p.age ∧ a ≠ f then
          retire ps D f fuel (if a + 1 = ps.length then 0 else a + 1)
        else .ok a := by
  rfl

theorem retire_spec (ps : List (Particle α)) (D : α) (f : Nat) (hf : f < ps.length) :
    ∀ (d a : Nat), a < ps.length → windowCount ps.length a f = d →
      ∃ j, j ≤ d ∧ (∀ k, k < j → D ≤ ageAt ps (windowIndex ps.length a k)) ∧
        (j < d → ageAt ps (windowIndex ps.length a j) < D) ∧
        (∀ fuel, j ≤ fuel → retire ps D f fuel a = .ok (windowIndex ps.length a j)) ∧
        (∀ fuel, fuel < j → retire ps D f fuel a = .error .outOfFuel) := by
  intro d
  induction d with
  | zero =>
    intro a ha hd
    have haf : a = f := (windowCount_eq_zero ha hf).mp hd
    refine ⟨0, le_refl _, fun k hk => absurd hk (Nat.not_lt_zero k), fun h => absurd h (lt_irrefl _),
      fun fuel _ => ?_, fun fuel h => absurd h (Nat.not_lt_zero fuel)⟩
    subst haf
    cases fuel with
    | zero => simp [retire_zero, List.getElem?_eq_getElem ha, windowIndex_zero ha]
    | succ fuel => simp [retire_succ, List.getElem?_eq_getElem ha, windowIndex_zero ha]
  | succ d ih =>
    intro a ha hd
    have haf : a ≠ f := fun h => by
      rw [(windowCount_eq_zero ha hf).mpr h] at hd
      omega
    have hage : ageAt ps a = (ps[a]).age := ageAt_of_getElem? (List.getElem?_eq_getElem ha)
    by_cases hdead : D ≤ (ps[a]).age
    · have ha' : (if a + 1 = ps.length then 0 else a + 1) < ps.length := by split_ifs <;> omega
      have hd' : windowCount ps.length (if a + 1 = ps.length then 0 else a + 1) f = d := by
        have := windowCount_next ha hf haf
        omega
      obtain ⟨j, hj, hold, hyoung, hok, hout⟩ := ih _ ha' hd'
      refine ⟨j + 1, by omega, fun k hk => ?_, fun h => ?_, fun fuel hfuel => ?_, fun fuel hfuel => ?_⟩
      · cases k with
        | zero => rw [windowIndex_zero ha, hage]; exact hdead
        | succ k => rw [windowIndex_succ]; exact hold k (by omega)
      · rw [windowIndex_succ]
        exact hyoung (by omega)
      · cases fuel with
        | zero => omega
        | succ fuel =>
          rw [windowIndex_succ, ← hok fuel (by omega)]
          simp [retire_succ, List.getElem?_eq_getElem ha, hdead, haf]
      · cases fuel with
        | zero =>
          simp [retire_zero, List.getElem?_eq_getElem ha, hdead, haf]
        | succ fuel =>
          rw [← hout fuel (by omega)]
          simp [retire_succ, List.getElem?_eq_getElem ha, hdead, haf]
    · refine ⟨0, Nat.zero_le _, fun k hk => absurd hk (Nat.not_lt_zero k), fun _ => ?_,
        fun fuel _ => ?_, fun fuel h => absurd h (Nat.not_lt_zero fuel)⟩
      · rw [windowIndex_zero ha, hage]
        exact lt_of_not_le hdead
      · cases fuel with
        | zero => simp [retire_zero, List.getElem?_eq_getElem ha, hdead, windowIndex_zero ha]
        | succ fuel => simp [retire_succ, List.getElem?_eq_getElem ha, hdead, windowIndex_zero ha]

/-! ## `ParticlePool.update` -/

theorem not_inWindow_of_le {n a f i : Nat} (hn : 0 < n) (hi : n ≤ i) : ¬ inWindow n a f i := by
  rintro ⟨k, _, rfl⟩
  have := @windowIndex_lt n a k hn
  omega

theorem update_integrate (pool : ParticlePool α) (dt : α)
    (ha : pool.firstActive < pool.particles.length) (hf : pool.firstFree < pool.particles.length) :
    ∃ ps', ps'.length = pool.particles.length ∧
      (∀ i, ps'[i]? =
        if inWindow pool.particles.length pool.firstActive pool.firstFree i
        then (pool.particles[i]?).map (fun p => p.update dt) else pool.particles[i]?) ∧
      ∀ fuel, pool.update fuel dt =
        (retire ps' pool.duration pool.firstFree fuel pool.firstActive).map
          (fun a => { pool with particles := ps', firstActive := a }) := by
  have hn : 0 < pool.particles.length := by omega
  have key : ∀ (ps' : List (Particle α)) (c : Nat → Prop) [DecidablePred c],
      ps'.length = pool.particles.length →
      (∀ i, ps'[i]? = if c i then (pool.particles[i]?).map (fun p => p.update dt)
        else pool.particles[i]?) →
      (∀ i, i < pool.particles.length →
        (c i ↔ (pool.firstActive ≤ i ∧ i < pool.firstFree) ∨
          (pool.firstFree < pool.firstActive ∧ (pool.firstActive ≤ i ∨ i < pool.firstFree)))) →
      ∀ i, ps'[i]? =
        if inWindow pool.particles.length pool.firstActive pool.firstFree i
        then (pool.particles[i]?).map (fun p => p.update dt) else pool.particles[i]? := by
    intro ps' c _ hlen hchar hc i
    by_cases hi : i < pool.particles.length
    · rw [hchar i]
      have h1 := hc i hi
      have h2 := @inWindow_iff _ _ _ i ha hf hi
      by_cases hci : c i
      · rw [if_pos hci, if_pos (h2.mpr (h1.mp hci))]
      · rw [if_neg hci, if_neg (fun h => hci (h1.mpr (h2.mp h)))]
    · have h1 : ps'[i]? = none := List.getElem?_eq_none (by omega)
      have h2 : pool.particles[i]? = none := List.getElem?_eq_none (by omega)
      rw [h1, h2]
      simp
  rcases Nat.lt_trichotomy pool.firstActive pool.firstFree with hlt | heq | hgt
  · obtain ⟨ps', h1, h2, h3⟩ := updateSlots_spec dt (pool.firstFree - pool.firstActive)
      pool.firstActive pool.particles (by omega)
    refine ⟨ps', h2, key ps' _ h2 h3 (fun i hi => by constructor <;> intro h <;> omega), fun fuel => ?_⟩
    simp only [ParticlePool.update, if_pos hlt, if_neg (Nat.lt_asymm hlt), h1]
    rfl
  · refine ⟨pool.particles, rfl,
      key pool.particles (fun _ => False) rfl (fun i => by simp)
        (fun i hi => by constructor <;> intro h <;> first | exact h.elim | omega), fun fuel => ?_⟩
    simp only [ParticlePool.update, heq, lt_irrefl, if_false]
    rfl
  · obtain ⟨ps1, h1, h2, h3⟩ := updateSlots_spec dt (pool.particles.length - pool.firstActive)
      pool.firstActive pool.particles (by omega)
    obtain ⟨ps2, k1, k2, k3⟩ := updateSlots_spec dt pool.firstFree 0 ps1 (by omega)
    refine ⟨ps2, by omega,
      key ps2 (fun i => (pool.firstActive ≤ i ∧ i < pool.particles.length) ∨ i < pool.firstFree)
        (by omega) (fun i => ?_) (fun i hi => by constructor <;> intro h <;> omega), fun fuel => ?_⟩
    · rw [k3 i, h3 i]
      by_cases hi1 : i < pool.firstFree
      · rw [if_pos (by omega), if_neg (by omega), if_pos (Or.inr hi1)]
      · rw [if_neg (by omega)]
        by_cases hi2 : pool.firstActive ≤ i ∧ i < pool.particles.length
        · rw [if_pos (by omega), if_pos (Or.inl hi2)]
        · rw [if_neg (by omega), if_neg (by omega)]
    · simp only [ParticlePool.update, if_pos hgt, if_neg (Nat.lt_asymm hgt)]
      simp only [bind, Except.bind, pure, Except.pure, h1]
      rw [k1]
      rfl

/-! ## More arithmetic of the cursors -/

theorem succ_mod_eq {n a : Nat} (ha : a < n) :
    (a + 1) % n = if a + 1 = n then 0 else a + 1 := by
  split_ifs with h
  · rw [h, Nat.mod_self]
  · exact Nat.mod_eq_of_lt (by omega)

theorem windowCount_succ_free {n a f : Nat} (ha : a < n) (hf : f < n) (h : (f + 1) % n ≠ a) :
    windowCount n a ((f + 1) % n) = windowCount n a f + 1 := by
  have hf' : (f + 1) % n < n := Nat.mod_lt _ (by omega)
  rw [windowCount_eq ha hf, windowCount_eq ha hf']
  rw [succ_mod_eq hf] at h ⊢
  split_ifs at h ⊢ <;> omega

theorem windowCount_full {n a f : Nat} (ha : a < n) (hf : f < n) :
    (f + 1) % n = a ↔ windowCount n a f = n - 1 := by
  rw [windowCount_eq ha hf, succ_mod_eq hf]
  split_ifs <;> omega

theorem windowCount_shift {n a f : Nat} (ha : a < n) (hf : f < n) :
    windowCount n ((a + 1) % n) ((f + 1) % n) = windowCount n a f := by
  have ha' : (a + 1) % n < n := Nat.mod_lt _ (by omega)
  have hf' : (f + 1) % n < n := Nat.mod_lt _ (by omega)
  rw [windowCount_eq ha hf, windowCount_eq ha' hf', succ_mod_eq ha, succ_mod_eq hf]
  split_ifs <;> omega

theorem windowIndex_ne_free {n a f k : Nat} (ha : a < n) (hf : f < n)
    (hk : k < windowCount n a f) : windowIndex n a k ≠ f := by
  have hkn : k < n := lt_trans hk (windowCount_lt ha)
  rw [windowCount_eq ha hf] at hk
  rw [windowIndex_eq ha hkn]
  split_ifs at hk ⊢ <;> omega

theorem windowIndex_add (n a j k : Nat) :
    windowIndex n (windowIndex n a j) k = windowIndex n a (j + k) := by
  unfold windowIndex
  rw [Nat.mod_add_mod, Nat.add_assoc]

theorem windowCount_drop {n a f j : Nat} (ha : a < n) (hf : f < n) (hj : j ≤ windowCount n a f) :
    windowCount n (windowIndex n a j) f = windowCount n a f - j := by
  have hjn : j < n := lt_of_le_of_lt hj (windowCount_lt ha)
  have ha' : windowIndex n a j < n := windowIndex_lt (by omega)
  rw [windowCount_eq ha' hf]
  rw [windowCount_eq ha hf] at hj ⊢
  rw [windowIndex_eq ha hjn]
  split_ifs at hj ⊢ <;> omega

theorem windowIndex_injective {n a k₁ k₂ : Nat} (ha : a < n) (h₁ : k₁ < n) (h₂ : k₂ < n)
    (h : windowIndex n a k₁ = windowIndex n a k₂) : k₁ = k₂ := by
  rw [windowIndex_eq ha h₁, windowIndex_eq ha h₂] at h
  split_ifs at h <;> omega

theorem inWindow_index {n a f k : Nat} (hk : k < windowCount n a f) :
    inWindow n a f (windowIndex n a k) :=
  ⟨k, hk, rfl⟩

/-! ## Ages of the slots -/

theorem ageAt_set (ps : List (Particle α)) (i j : Nat) (q : Particle α) (hi : i < ps.length) :
    ageAt (ps.set i q) j = if j = i then q.age else ageAt ps j := by
  unfold ageAt
  rw [List.getElem?_set]
  by_cases h : i = j
  · subst h
    simp [hi]
  · have h' : ¬ j = i := fun e => h e.symm
    simp [h, h']

theorem age_initialise (st : Settings α) (p : Particle α) (x y dx dy : α) :
    (p.initialise st x y dx dy).age = 0 :=
  rfl

theorem age_update (p : Particle α) (dt : α) : (p.update dt).age = p.age + dt :=
  rfl

theorem ageAt_integrate {ps ps' : List (Particle α)} {c : Nat → Prop} [DecidablePred c] {dt : α}
    (h : ∀ i, ps'[i]? = if c i then (ps[i]?).map (fun p => p.update dt) else ps[i]?)
    (i : Nat) (hi : i < ps.length) :
    ageAt ps' i = if c i then ageAt ps i + dt else ageAt ps i := by
  unfold ageAt
  rw [h i, List.getElem?_eq_getElem hi]
  split_ifs <;> simp [age_update]

/-! ## `ParticlePool.add` -/

theorem add_spec (st : Settings α) (pool : ParticlePool α) (x y dx dy : α)
    (ha : pool.firstActive < pool.particles.length) (hf : pool.firstFree < pool.particles.length) :
    pool.add st x y dx dy = .ok
      { particles := pool.particles.set pool.firstFree
          ((pool.particles[pool.firstFree]).initialise st x y dx dy),
        firstActive :=
          if (pool.firstFree + 1) % pool.particles.length = pool.firstActive
          then (pool.firstActive + 1) % pool.particles.length else pool.firstActive,
        firstFree := (pool.firstFree + 1) % pool.particles.length,
        duration := pool.duration } := by
  unfold ParticlePool.add
  rw [List.getElem?_eq_getElem hf]
  simp only [List.length_set]
  rw [succ_mod_eq hf, succ_mod_eq ha]
  congr 2
  split_ifs <;> first | rfl | omega

/-! ## The invariant -/

theorem ageAt_replicate_new (n i : Nat) : ageAt (List.replicate n (Particle.new : Particle α)) i = 0 := by
  unfold ageAt
  rw [List.getElem?_replicate]
  split_ifs <;> rfl

theorem inv_new (st : Settings α) (n : Nat) (hn : 1 ≤ n) : (ParticlePool.new st n).Inv where
  firstActive_lt := by simp [ParticlePool.new]; omega
  firstFree_lt := by simp [ParticlePool.new]; omega
  age_nonneg := fun i => by simp [ParticlePool.new, ageAt_replicate_new]
  sorted := fun k₁ k₂ _ _ => by simp [ParticlePool.new, ageAt_replicate_new]

theorem windowIndex_shift (n a k : Nat) :
    windowIndex n ((a + 1) % n) k = windowIndex n a (k + 1) := by
  unfold windowIndex
  rw [Nat.mod_add_mod]
  congr 1
  omega

theorem inv_add {st : Settings α} {pool pool' : ParticlePool α} {x y dx dy : α}
    (hinv : pool.Inv) (h : pool.add st x y dx dy = .ok pool') : pool'.Inv := by
  obtain ⟨ha, hf, hnn, hs⟩ := hinv
  rw [add_spec st pool x y dx dy ha hf] at h
  injection h with h
  subst h
  have hn : 0 < pool.particles.length := by omega
  have hage : ∀ j, ageAt (pool.particles.set pool.firstFree
      ((pool.particles[pool.firstFree]).initialise st x y dx dy)) j =
        if j = pool.firstFree then 0 else ageAt pool.particles j := fun j => by
    rw [ageAt_set _ _ _ _ hf, age_initialise]
  refine ⟨?_, ?_, ?_, ?_⟩
  · simp only [List.length_set]
    split_ifs
    · exact Nat.mod_lt _ hn
    · exact ha
  · simp only [List.length_set]
    exact Nat.mod_lt _ hn
  · intro i
    rw [hage]
    split_ifs
    · exact le_refl _
    · exact hnn i
  · intro k₁ k₂ h12 hk
    simp only [ParticlePool.activeCount, List.length_set] at hk ⊢
    rw [hage, hage]
    unfold ParticlePool.activeCount at hs
    by_cases hfull : (pool.firstFree + 1) % pool.particles.length = pool.firstActive
    · rw [if_pos hfull] at hk ⊢
      rw [windowCount_shift ha hf] at hk
      rw [windowIndex_shift, windowIndex_shift]
      by_cases hlast : k₂ + 1 = windowCount pool.particles.length pool.firstActive pool.firstFree
      · rw [hlast, windowIndex_count ha hf, if_pos rfl]
        split_ifs
        · exact le_refl _
        · exact hnn _
      · rw [if_neg (windowIndex_ne_free ha hf (by omega)),
          if_neg (windowIndex_ne_free ha hf (by omega))]
        exact hs (k₁ + 1) (k₂ + 1) (by omega) (by omega)
    · rw [if_neg hfull] at hk ⊢
      rw [windowCount_succ_free ha hf hfull] at hk
      by_cases hlast : k₂ = windowCount pool.particles.length pool.firstActive pool.firstFree
      · rw [hlast, windowIndex_count ha hf, if_pos rfl]
        split_ifs
        · exact le_refl _
        · exact hnn _
      · rw [if_neg (windowIndex_ne_free ha hf (by omega)),
          if_neg (windowIndex_ne_free ha hf (by omega))]
        exact hs k₁ k₂ h12 (by omega)

theorem inv_update {pool pool' : ParticlePool α} {fuel : Nat} {dt : α}
    (hinv : pool.Inv) (hdt : 0 ≤ dt) (h : pool.update fuel dt = .ok pool') :
    pool'.Inv ∧ ∀ k, k < pool'.activeCount →
      ageAt pool'.particles (windowIndex pool'.particles.length pool'.firstActive k) <
        pool'.duration := by
  obtain ⟨ha, hf, hnn, hs⟩ := hinv
  unfold ParticlePool.activeCount at hs
  obtain ⟨ps', hlen, hchar, hrun⟩ := update_integrate pool dt ha hf
  have hf' : pool.firstFree < ps'.length := by omega
  have ha' : pool.firstActive < ps'.length := by omega
  obtain ⟨j, hj, -, hyoung, hok, hout⟩ :=
    retire_spec ps' pool.duration pool.firstFree hf' _ pool.firstActive ha' rfl
  rw [hlen] at hj hyoung hok
  have hfuel : j ≤ fuel := by
    by_contra hlt
    rw [hrun fuel, hout fuel (by omega)] at h
    cases h
  have hpool : pool' = ⟨ps', windowIndex pool.particles.length pool.firstActive j,
      pool.firstFree, pool.duration⟩ := by
    rw [hrun fuel, hok fuel hfuel] at h
    exact (Except.ok.inj h).symm
  subst hpool
  have hage : ∀ k, k < windowCount pool.particles.length pool.firstActive pool.firstFree →
      ageAt ps' (windowIndex pool.particles.length pool.firstActive k) =
        ageAt pool.particles (windowIndex pool.particles.length pool.firstActive k) + dt := by
    intro k hk
    rw [ageAt_integrate hchar _ (windowIndex_lt (by omega)), if_pos (inWindow_index hk)]
  have hsorted : ∀ k₁ k₂, k₁ ≤ k₂ →
      k₂ < windowCount pool.particles.length pool.firstActive pool.firstFree →
      ageAt ps' (windowIndex pool.particles.length pool.firstActive k₂) ≤
        ageAt ps' (windowIndex pool.particles.length pool.firstActive k₁) := by
    intro k₁ k₂ h12 hk
    rw [hage k₂ hk, hage k₁ (by omega)]
    exact add_le_add_right (hs k₁ k₂ h12 hk) dt
  have hcount : windowCount pool.particles.length
      (windowIndex pool.particles.length pool.firstActive j) pool.firstFree =
      windowCount pool.particles.length pool.firstActive pool.firstFree - j :=
    windowCount_drop ha hf hj
  refine ⟨⟨?_, ?_, ?_, ?_⟩, ?_⟩
  · dsimp only
    rw [hlen]
    exact windowIndex_lt (by omega)
  · exact hf'
  · intro i
    dsimp only
    by_cases hi : i < pool.particles.length
    · rw [ageAt_integrate hchar i hi]
      split_ifs
      · exact add_nonneg (hnn i) hdt
      · exact hnn i
    · unfold ageAt
      rw [List.getElem?_eq_none (by omega)]
  · intro k₁ k₂ h12 hk
    simp only [ParticlePool.activeCount, hlen, hcount] at hk ⊢
    rw [windowIndex_add, windowIndex_add]
    exact hsorted _ _ (by omega) (by omega)
  · intro k hk
    simp only [ParticlePool.activeCount, hlen, hcount] at hk ⊢
    rw [windowIndex_add]
    exact lt_of_le_of_lt (hsorted j (j + k) (by omega) (by omega)) (hyoung (by omega))

theorem add_duration {st : Settings α} {pool pool' : ParticlePool α} {x y dx dy : α}
    (h : pool.add st x y dx dy = .ok pool') :
    pool'.duration = pool.duration ∧ pool'.particles.length = pool.particles.length := by
  unfold ParticlePool.add at h
  split at h
  · cases h
  · injection h with h
    subst h
    simp

theorem update_duration {pool pool' : ParticlePool α} {fuel : Nat} {dt : α}
    (hinv : pool.Inv) (h : pool.update fuel dt = .ok pool') :
    pool'.duration = pool.duration ∧ pool'.particles.length = pool.particles.length ∧
      pool'.firstFree = pool.firstFree := by
  obtain ⟨ps', hlen, -, hrun⟩ := update_integrate pool dt hinv.firstActive_lt hinv.firstFree_lt
  rw [hrun fuel] at h
  cases hr : retire ps' pool.duration pool.firstFree fuel pool.firstActive with
  | error e => rw [hr] at h; cases h
  | ok a =>
    rw [hr] at h
    have hpool : pool' = ⟨ps', a, pool.firstFree, pool.duration⟩ := (Except.ok.inj h).symm
    subst hpool
    exact ⟨rfl, hlen, rfl⟩

theorem reachable_inv {st : Settings α} {n : Nat} (hn : 1 ≤ n) {pool : ParticlePool α}
    (h : Reachable st n pool) :
    pool.Inv ∧ pool.duration = st.duration ∧ pool.particles.length = n := by
  induction h with
  | fresh => exact ⟨inv_new st n hn, rfl, by simp [ParticlePool.new]⟩
  | add x y dx dy _ hadd ih =>
    obtain ⟨h1, h2⟩ := add_duration hadd
    exact ⟨inv_add ih.1 hadd, by rw [h1, ih.2.1], by rw [h2, ih.2.2]⟩
  | update fuel dt _ hdt hupd ih =>
    obtain ⟨h1, h2, -⟩ := update_duration ih.1 hupd
    exact ⟨(inv_update ih.1 hdt hupd).1, by rw [h1, ih.2.1], by rw [h2, ih.2.2]⟩

theorem update_total (pool : ParticlePool α) (dt : α)
    (ha : pool.firstActive < pool.particles.length) (hf : pool.firstFree < pool.particles.length)
    (fuel : Nat) (hfuel : pool.activeCount ≤ fuel) :
    ∃ pool', pool.update fuel dt = .ok pool' := by
  obtain ⟨ps', hlen, -, hrun⟩ := update_integrate pool dt ha hf
  obtain ⟨j, hj, -, -, hok, -⟩ :=
    retire_spec ps' pool.duration pool.firstFree (by omega) _ pool.firstActive (by omega) rfl
  rw [hlen] at hj
  rw [hrun fuel, hok fuel (le_trans hj hfuel)]
  exact ⟨_, rfl⟩

/-! ## Runs of `add` -/

theorem add_count (st : Settings α) (pool : ParticlePool α) (x y dx dy : α)
    (ha : pool.firstActive < pool.particles.length) (hf : pool.firstFree < pool.particles.length) :
    ∃ pool', pool.add st x y dx dy = .ok pool' ∧
      pool'.particles.length = pool.particles.length ∧
      pool'.firstActive < pool.particles.length ∧
      pool'.firstFree = (pool.firstFree + 1) % pool.particles.length ∧
      pool'.activeCount = min (pool.activeCount + 1) (pool.particles.length - 1) ∧
      ((∀ i, ageAt pool.particles i = 0) → ∀ i, ageAt pool'.particles i = 0) := by
  have hn : 0 < pool.particles.length := by omega
  refine ⟨_, add_spec st pool x y dx dy ha hf, by simp, ?_, rfl, ?_, ?_⟩
  · dsimp only
    split_ifs
    · exact Nat.mod_lt _ hn
    · exact ha
  · simp only [ParticlePool.activeCount, List.length_set]
    have hc := @windowCount_lt pool.particles.length pool.firstActive pool.firstFree ha
    by_cases hfull : (pool.firstFree + 1) % pool.particles.length = pool.firstActive
    · rw [if_pos hfull, windowCount_shift ha hf]
      have := (windowCount_full ha hf).mp hfull
      omega
    · rw [if_neg hfull, windowCount_succ_free ha hf hfull]
      have := mt (windowCount_full ha hf).mpr hfull
      omega
  · intro h0 i
    dsimp only
    rw [ageAt_set _ _ _ _ hf, age_initialise, h0 i]
    simp

theorem addAll_spec (st : Settings α) :
    ∀ (args : List (α × α × α × α)) (pool : ParticlePool α),
      pool.firstActive < pool.particles.length → pool.firstFree < pool.particles.length →
      ∃ pool', addAll st pool args = .ok pool' ∧
        pool'.particles.length = pool.particles.length ∧
        pool'.firstActive < pool.particles.length ∧
        pool'.firstFree = (pool.firstFree + args.length) % pool.particles.length ∧
        pool'.activeCount = min (pool.activeCount + args.length) (pool.particles.length - 1) ∧
        pool'.duration = pool.duration ∧
        ((∀ i, ageAt pool.particles i = 0) → ∀ i, ageAt pool'.particles i = 0) := by
  intro args
  induction args with
  | nil =>
    intro pool ha hf
    refine ⟨pool, rfl, rfl, ha, ?_, ?_, rfl, fun h => h⟩
    · simp [Nat.mod_eq_of_lt hf]
    · have := @windowCount_lt pool.particles.length pool.firstActive pool.firstFree ha
      simp only [ParticlePool.activeCount, List.length_nil, Nat.add_zero]
      omega
  | cons arg rest ih =>
    intro pool ha hf
    obtain ⟨x, y, dx, dy⟩ := arg
    obtain ⟨p1, h1, hlen1, ha1, hf1, hc1, hz1⟩ := add_count st pool x y dx dy ha hf
    have hd1 := (add_duration h1).1
    have hf1' : p1.firstFree < p1.particles.length := by
      rw [hf1, hlen1]
      exact Nat.mod_lt _ (by omega)
    obtain ⟨p2, h2, hlen2, ha2, hf2, hc2, hd2, hz2⟩ := ih p1 (by omega) hf1'
    refine ⟨p2, ?_, by omega, by omega, ?_, ?_, by rw [hd2, hd1], fun h => hz2 (hz1 h)⟩
    · simp only [addAll, h1]
      exact h2
    · rw [hf2, hf1, hlen1, Nat.mod_add_mod, List.length_cons]
      congr 1
      omega
    · rw [hc2, hc1, hlen1, List.length_cons]
      omega

/-! ## The whole of `ParticlePool.update` -/

theorem update_spec (pool : ParticlePool α) (dt : α)
    (ha : pool.firstActive < pool.particles.length) (hf : pool.firstFree < pool.particles.length) :
    ∃ (ps' : List (Particle α)) (j : Nat),
      ps'.length = pool.particles.length ∧
      (∀ i, ps'[i]? =
        if inWindow pool.particles.length pool.firstActive pool.firstFree i
        then (pool.particles[i]?).map (fun p => p.update dt) else pool.particles[i]?) ∧
      j ≤ pool.activeCount ∧
      (∀ k, k < j →
        pool.duration ≤ ageAt ps' (windowIndex pool.particles.length pool.firstActive k)) ∧
      (j < pool.activeCount →
        ageAt ps' (windowIndex pool.particles.length pool.firstActive j) < pool.duration) ∧
      (∀ fuel, j ≤ fuel → pool.update fuel dt = .ok
        ⟨ps', windowIndex pool.particles.length pool.firstActive j, pool.firstFree,
          pool.duration⟩) ∧
      (∀ fuel, fuel < j → pool.update fuel dt = .error .outOfFuel) := by
  obtain ⟨ps', hlen, hchar, hrun⟩ := update_integrate pool dt ha hf
  obtain ⟨j, hj, hold, hyoung, hok, hout⟩ :=
    retire_spec ps' pool.duration pool.firstFree (by omega) _ pool.firstActive (by omega) rfl
  rw [hlen] at hj hold hyoung hok
  refine ⟨ps', j, hlen, hchar, hj, hold, hyoung, fun fuel hfuel => ?_, fun fuel hfuel => ?_⟩
  · rw [hrun fuel, hok fuel hfuel]
    rfl
  · rw [hrun fuel, hout fuel hfuel]
    rfl

/-! # The claims -/

theorem reachable_addAll {st : Settings α} {n : Nat} :
    ∀ (args : List (α × α × α × α)) {pool pool' : ParticlePool α},
      Reachable st n pool → addAll st pool args = .ok pool' → Reachable st n pool' := by
  intro args
  induction args with
  | nil =>
    intro pool pool' hr h
    cases h
    exact hr
  | cons arg rest ih =>
    intro pool pool' hr h
    obtain ⟨x, y, dx, dy⟩ := arg
    cases h1 : pool.add st x y dx dy with
    | error e => simp [addAll, h1] at h
    | ok p1 =>
      simp only [addAll, h1] at h
      exact ih (Reachable.add x y dx dy hr h1) h

theorem twoAdded_reachable : Reachable settings 3 twoAdded :=
  reachable_addAll [(0, 0, 1, 0), (0, 0, 1, 0)] Reachable.fresh
    (by simp [addAll, ParticlePool.add, ParticlePool.new, twoAdded, spark, settings])

theorem twoAdded_update : twoAdded.update 0 1 = .ok twoAged := by
  simp [ParticlePool.update, twoAdded, twoAged, updateSlots, retire, bind, Except.bind, pure,
    Except.pure, spark, Particle.update, Particle.initialise]

/-- C1. In every state reached from a freshly constructed pool of capacity
`n ≥ 1` by calls of `add` and of `update` with `deltaTime ≥ 0`, a further
`update(dt)` with `dt ≥ 0` returns as soon as the fuel covers the active
window, and in the state it returns every slot of the active window
`[firstActive, firstFree)` holds a particle whose age is below the duration. -/
theorem update_leaves_window_young (st : Settings α) (n : Nat) (hn : 1 ≤ n)
    (pool : ParticlePool α) (hreach : Reachable st n pool) (dt : α) (hdt : 0 ≤ dt) :
    (∀ fuel, pool.activeCount ≤ fuel → ∃ pool', pool.update fuel dt = .ok pool') ∧
    ∀ fuel pool', pool.update fuel dt = .ok pool' →
      ∀ i, inWindow pool'.particles.length pool'.firstActive pool'.firstFree i →
        ∃ p, pool'.particles[i]? = some p ∧ p.age < st.duration := by
  obtain ⟨hinv, hdur, -⟩ := reachable_inv hn hreach
  refine ⟨fun fuel hfuel =>
    update_total pool dt hinv.firstActive_lt hinv.firstFree_lt fuel hfuel, ?_⟩
  intro fuel pool' hupd i hi
  obtain ⟨hinv', hyoung⟩ := inv_update hinv hdt hupd
  obtain ⟨hd', -, -⟩ := update_duration hinv hupd
  obtain ⟨k, hk, rfl⟩ := hi
  have hlt : windowIndex pool'.particles.length pool'.firstActive k < pool'.particles.length :=
    windowIndex_lt (by have := hinv'.firstActive_lt; omega)
  refine ⟨_, List.getElem?_eq_getElem hlt, ?_⟩
  have := hyoung k hk
  rw [ageAt_of_getElem? (List.getElem?_eq_getElem hlt), hd', hdur] at this
  exact this

/-- Witness of C1: the pool of three slots after two `add(0, 0, 1, 0)` and
`update(1)` holds in slot `1` a particle younger than the duration. -/
theorem update_leaves_window_young_witness :
    1 ≤ 3 ∧ Reachable settings 3 twoAdded ∧ (0 : ℚ) ≤ 1 ∧
      ∃ p, twoAged.particles[1]? = some p ∧ p.age < (settings : Settings ℚ).duration :=
  ⟨by decide, twoAdded_reachable, by norm_num,
    (update_leaves_window_young settings 3 (by decide) twoAdded twoAdded_reachable 1
      (by norm_num)).2 0 twoAged twoAdded_update 1 ⟨1, by decide, by decide⟩⟩

theorem firstActive_of_count {n a f c : Nat} (ha : a < n) (hf : f < n)
    (h : windowCount n a f = c) : a = (f + n - c) % n := by
  rw [windowCount_eq ha hf] at h
  split_ifs at h with hle
  · have : f + n - c = a + n := by omega
    rw [this, Nat.add_mod_right, Nat.mod_eq_of_lt ha]
  · have : f + n - c = a := by omega
    rw [this, Nat.mod_eq_of_lt ha]

theorem addAll_new (st : Settings α) (n : Nat) (hn : 1 ≤ n) (args : List (α × α × α × α)) :
    ∃ pool, addAll st (ParticlePool.new st n) args = .ok pool ∧
      pool.particles.length = n ∧ pool.firstActive < n ∧ pool.firstFree < n ∧
      pool.firstFree = args.length % n ∧
      pool.activeCount = min args.length (n - 1) ∧
      pool.duration = st.duration ∧ ∀ i, ageAt pool.particles i = 0 := by
  have hlen : (ParticlePool.new st n).particles.length = n := by simp [ParticlePool.new]
  have ha0 : (ParticlePool.new st n).firstActive = 0 := rfl
  have hf0 : (ParticlePool.new st n).firstFree = 0 := rfl
  have hc0 : (ParticlePool.new st n).activeCount = 0 := by
    unfold ParticlePool.activeCount
    rw [hlen, ha0, hf0]
    simp [windowCount]
  obtain ⟨pool, h, h1, h2, h3, h4, h5, h6⟩ :=
    addAll_spec st args (ParticlePool.new st n) (by rw [hlen, ha0]; omega)
      (by rw [hlen, hf0]; omega)
  rw [hlen] at h1 h2 h3 h4
  rw [hf0, Nat.zero_add] at h3
  rw [hc0, Nat.zero_add] at h4
  refine ⟨pool, h, h1, h2, ?_, h3, h4, h5, h6 (fun i => ageAt_replicate_new n i)⟩
  rw [h3]
  exact Nat.mod_lt _ (by omega)

/-- C2, as the code has it. On a freshly constructed pool of capacity `n ≥ 1`,
a run of `N` calls of `add` with `N < n` returns a pool whose active window
holds exactly `N` particles, with `firstActive = 0` and `firstFree = N`; a run
of exactly `n` calls returns a pool whose window holds `n - 1` particles, with
`firstFree = 0` and `firstActive = 1 mod n`. -/
theorem adds_below_capacity (st : Settings α) (n : Nat) (hn : 1 ≤ n)
    (args : List (α × α × α × α)) :
    ∃ pool, addAll st (ParticlePool.new st n) args = .ok pool ∧
      (args.length < n →
        pool.activeCount = args.length ∧ pool.firstActive = 0 ∧ pool.firstFree = args.length) ∧
      (args.length = n →
        pool.activeCount = n - 1 ∧ pool.firstActive = 1 % n ∧ pool.firstFree = 0) := by
  obtain ⟨pool, h, hlen, ha, hf, hff, hc, -, -⟩ := addAll_new st n hn args
  refine ⟨pool, h, fun hlt => ?_, fun heq => ?_⟩
  · have hff' : pool.firstFree = args.length := by rw [hff, Nat.mod_eq_of_lt hlt]
    have hc' : pool.activeCount = args.length := by rw [hc]; omega
    refine ⟨hc', ?_, hff'⟩
    unfold ParticlePool.activeCount at hc'
    rw [hlen] at hc'
    have := firstActive_of_count ha hf hc'
    rw [this, hff']
    have e : args.length + n - args.length = n := by omega
    rw [e, Nat.mod_self]
  · have hff' : pool.firstFree = 0 := by rw [hff, heq, Nat.mod_self]
    have hc' : pool.activeCount = n - 1 := by rw [hc]; omega
    refine ⟨hc', ?_, hff'⟩
    unfold ParticlePool.activeCount at hc'
    rw [hlen] at hc'
    have := firstActive_of_count ha hf hc'
    rw [this, hff']
    congr 1
    omega

/-- Witness of C2 as the code has it: two calls `add(0, 0, 1, 0)` on a pool of
three slots. -/
theorem adds_below_capacity_witness :
    1 ≤ 3 ∧ ∃ pool : ParticlePool ℚ,
      addAll settings (ParticlePool.new settings 3) [(0, 0, 1, 0), (0, 0, 1, 0)] = .ok pool ∧
      ([((0 : ℚ), (0 : ℚ), (1 : ℚ), (0 : ℚ)), (0, 0, 1, 0)].length < 3 →
        pool.activeCount = [((0 : ℚ), (0 : ℚ), (1 : ℚ), (0 : ℚ)), (0, 0, 1, 0)].length ∧
          pool.firstActive = 0 ∧
          pool.firstFree = [((0 : ℚ), (0 : ℚ), (1 : ℚ), (0 : ℚ)), (0, 0, 1, 0)].length) ∧
      ([((0 : ℚ), (0 : ℚ), (1 : ℚ), (0 : ℚ)), (0, 0, 1, 0)].length = 3 →
        pool.activeCount = 3 - 1 ∧ pool.firstActive = 1 % 3 ∧ pool.firstFree = 0) :=
  ⟨by decide, adds_below_capacity settings 3 (by decide) [(0, 0, 1, 0), (0, 0, 1, 0)]⟩

/-- Counterexample to C2 as stated: on a pool of capacity 3, three calls
`add(0, 0, 1, 0)` leave `firstActive = 1`, `firstFree = 0` and two particles in
the active window, not `firstActive = 0` with three particles. -/
theorem three_adds_capacity_three :
    ∃ pool : ParticlePool ℚ,
      addAll settings (ParticlePool.new settings 3) [(0, 0, 1, 0), (0, 0, 1, 0), (0, 0, 1, 0)] =
        .ok pool ∧
      pool.firstActive = 1 ∧ pool.firstFree = 0 ∧ pool.activeCount = 2 ∧
      ¬ (pool.activeCount = 3 ∧ pool.firstActive = 0) :=
  ⟨⟨[spark, spark, spark], 1, 0, 2⟩,
    by simp [addAll, ParticlePool.add, ParticlePool.new, spark, settings],
    rfl, rfl, by decide, by decide⟩

/-- C3, as the code has it. On a freshly constructed pool of capacity `n ≥ 1`,
a run of `n + 1` calls of `add` returns a pool whose active window holds
exactly `n - 1` particles (so never more than `n`), with `firstFree = 1 mod n`
and `firstActive = 2 mod n`. -/
theorem adds_past_capacity (st : Settings α) (n : Nat) (hn : 1 ≤ n)
    (args : List (α × α × α × α)) (hargs : args.length = n + 1) :
    ∃ pool, addAll st (ParticlePool.new st n) args = .ok pool ∧
      pool.activeCount = n - 1 ∧ pool.activeCount ≤ n ∧
      pool.firstFree = 1 % n ∧ pool.firstActive = 2 % n := by
  obtain ⟨pool, h, hlen, ha, hf, hff, hc, -, -⟩ := addAll_new st n hn args
  have hff' : pool.firstFree = 1 % n := by rw [hff, hargs, Nat.add_mod_left]
  have hc' : pool.activeCount = n - 1 := by rw [hc]; omega
  refine ⟨pool, h, hc', by omega, hff', ?_⟩
  unfold ParticlePool.activeCount at hc'
  rw [hlen] at hc'
  have := firstActive_of_count ha hf hc'
  rw [this, hff']
  rcases Nat.lt_or_ge 1 n with h1 | h1
  · rw [Nat.mod_eq_of_lt h1]
    congr 1
    omega
  · have e : n = 1 := by omega
    subst e
    rfl

/-- Witness of C3 as the code has it: four calls `add(0, 0, 1, 0)` on a pool of
three slots. -/
theorem adds_past_capacity_witness :
    1 ≤ 3 ∧ [((0 : ℚ), (0 : ℚ), (1 : ℚ), (0 : ℚ)), (0, 0, 1, 0), (0, 0, 1, 0), (0, 0, 1, 0)].length
        = 3 + 1 ∧
      ∃ pool : ParticlePool ℚ,
        addAll settings (ParticlePool.new settings 3)
          [(0, 0, 1, 0), (0, 0, 1, 0), (0, 0, 1, 0), (0, 0, 1, 0)] = .ok pool ∧
        pool.activeCount = 3 - 1 ∧ pool.activeCount ≤ 3 ∧
        pool.firstFree = 1 % 3 ∧ pool.firstActive = 2 % 3 :=
  ⟨by decide, rfl,
    adds_past_capacity settings 3 (by decide)
      [(0, 0, 1, 0), (0, 0, 1, 0), (0, 0, 1, 0), (0, 0, 1, 0)] rfl⟩

/-- Counterexample to C3 as stated: on a pool of capacity 3, four calls
`add(0, 0, 1, 0)` leave two particles in the active window `[2, 1)`, not
three. -/
theorem four_adds_capacity_three :
    ∃ pool : ParticlePool ℚ,
      addAll settings (ParticlePool.new settings 3)
        [(0, 0, 1, 0), (0, 0, 1, 0), (0, 0, 1, 0), (0, 0, 1, 0)] = .ok pool ∧
      pool.firstActive = 2 ∧ pool.firstFree = 1 ∧ pool.activeCount = 2 ∧
      ¬ pool.activeCount = 3 :=
  ⟨⟨[spark, spark, spark], 2, 1, 2⟩,
    by simp [addAll, ParticlePool.add, ParticlePool.new, spark, settings, Particle.initialise],
    rfl, rfl, by decide, by decide⟩

theorem ageAt_getElem (ps : List (Particle α)) (i : Nat) (hi : i < ps.length) :
    ∃ p, ps[i]? = some p ∧ ageAt ps i = p.age :=
  ⟨ps[i], List.getElem?_eq_getElem hi, ageAt_of_getElem? (List.getElem?_eq_getElem hi)⟩

/-- C4. When both cursors index the array, `add(x, y, dx, dy)` returns a pool
in which (i) the slot at the old `firstFree` holds the result of `initialize(x,
y, dx, dy)` on its former occupant and every other slot is unchanged, (ii)
`firstFree` is `(firstFree + 1) mod N`, and (iii) `firstActive` is
`(firstActive + 1) mod N` when the new `firstFree` equals the old `firstActive`
and is unchanged otherwise. -/
theorem add_effect (st : Settings α) (pool : ParticlePool α) (x y dx dy : α)
    (ha : pool.firstActive < pool.particles.length) (hf : pool.firstFree < pool.particles.length) :
    ∃ p pool', pool.particles[pool.firstFree]? = some p ∧
      pool.add st x y dx dy = .ok pool' ∧
      pool'.particles.length = pool.particles.length ∧
      pool'.particles[pool.firstFree]? = some (p.initialise st x y dx dy) ∧
      (∀ i, i ≠ pool.firstFree → pool'.particles[i]? = pool.particles[i]?) ∧
      pool'.firstFree = (pool.firstFree + 1) % pool.particles.length ∧
      pool'.firstActive =
        (if pool'.firstFree = pool.firstActive
         then (pool.firstActive + 1) % pool.particles.length else pool.firstActive) ∧
      pool'.duration = pool.duration := by
  refine ⟨pool.particles[pool.firstFree], _, List.getElem?_eq_getElem hf,
    add_spec st pool x y dx dy ha hf, by simp, ?_, fun i hi => ?_, rfl, rfl, rfl⟩
  · simp [hf]
  · exact List.getElem?_set_ne (fun h => hi h.symm)

/-- Witness of C4: a third `add` on the pool of three slots that holds two
particles wraps `firstFree` to `0`, meets `firstActive = 0` and moves it to `1`. -/
theorem add_effect_witness :
    twoAdded.firstActive < twoAdded.particles.length ∧
    twoAdded.firstFree < twoAdded.particles.length ∧
    ∃ p pool', twoAdded.particles[twoAdded.firstFree]? = some p ∧
      twoAdded.add settings 5 7 1 0 = .ok pool' ∧
      pool'.particles.length = twoAdded.particles.length ∧
      pool'.particles[twoAdded.firstFree]? = some (p.initialise settings 5 7 1 0) ∧
      (∀ i, i ≠ twoAdded.firstFree → pool'.particles[i]? = twoAdded.particles[i]?) ∧
      pool'.firstFree = (twoAdded.firstFree + 1) % twoAdded.particles.length ∧
      pool'.firstActive =
        (if pool'.firstFree = twoAdded.firstActive
         then (twoAdded.firstActive + 1) % twoAdded.particles.length
         else twoAdded.firstActive) ∧
      pool'.duration = twoAdded.duration :=
  ⟨by decide, by decide, add_effect settings twoAdded 5 7 1 0 (by decide) (by decide)⟩

/-- C5. When both cursors index the array, the `while` loop of `update(dt)`
runs exactly `j` rounds for some `j ≤ (firstFree - firstActive) mod N` (it
returns with any fuel `≥ j` and with none below), leaves `firstFree` as it was,
and sets `firstActive` to `(firstActive + j) mod N`, where the `j` slots before
it in circular order hold particles of age `≥ duration` after the integration,
and slot `(firstActive + j) mod N` holds a particle of age `< duration` unless
`j` is the whole window, in which case the new `firstActive` is `firstFree`. -/
theorem update_retires_front (pool : ParticlePool α) (dt : α)
    (ha : pool.firstActive < pool.particles.length) (hf : pool.firstFree < pool.particles.length) :
    ∃ (ps' : List (Particle α)) (j : Nat), j ≤ pool.activeCount ∧
      (∀ fuel, j ≤ fuel → pool.update fuel dt = .ok
        { particles := ps',
          firstActive := windowIndex pool.particles.length pool.firstActive j,
          firstFree := pool.firstFree,
          duration := pool.duration }) ∧
      (∀ fuel, fuel < j → pool.update fuel dt = .error .outOfFuel) ∧
      (∀ k, k < j → ∃ p, ps'[windowIndex pool.particles.length pool.firstActive k]? = some p ∧
        pool.duration ≤ p.age) ∧
      (j < pool.activeCount →
        ∃ p, ps'[windowIndex pool.particles.length pool.firstActive j]? = some p ∧
          p.age < pool.duration) ∧
      (j = pool.activeCount →
        windowIndex pool.particles.length pool.firstActive j = pool.firstFree) := by
  obtain ⟨ps', j, hlen, -, hj, hold, hyoung, hok, hout⟩ := update_spec pool dt ha hf
  have hidx : ∀ k, windowIndex pool.particles.length pool.firstActive k < ps'.length := by
    intro k
    rw [hlen]
    exact windowIndex_lt (by omega)
  refine ⟨ps', j, hj, hok, hout, fun k hk => ?_, fun hlt => ?_, fun heq => ?_⟩
  · obtain ⟨p, hp, hage⟩ := ageAt_getElem ps' _ (hidx k)
    exact ⟨p, hp, hage ▸ hold k hk⟩
  · obtain ⟨p, hp, hage⟩ := ageAt_getElem ps' _ (hidx j)
    exact ⟨p, hp, hage ▸ hyoung hlt⟩
  · rw [heq]
    exact windowIndex_count ha hf

/-- Witness of C5: `update(2.1)` on the pool of three slots that holds two
particles. -/
theorem update_retires_front_witness :
    twoAdded.firstActive < twoAdded.particles.length ∧
    twoAdded.firstFree < twoAdded.particles.length ∧
    ∃ (ps' : List (Particle ℚ)) (j : Nat), j ≤ twoAdded.activeCount ∧
      (∀ fuel, j ≤ fuel → twoAdded.update fuel 2.1 = .ok
        { particles := ps',
          firstActive := windowIndex twoAdded.particles.length twoAdded.firstActive j,
          firstFree := twoAdded.firstFree,
          duration := twoAdded.duration }) ∧
      (∀ fuel, fuel < j → twoAdded.update fuel 2.1 = .error .outOfFuel) ∧
      (∀ k, k < j →
        ∃ p, ps'[windowIndex twoAdded.particles.length twoAdded.firstActive k]? = some p ∧
          twoAdded.duration ≤ p.age) ∧
      (j < twoAdded.activeCount →
        ∃ p, ps'[windowIndex twoAdded.particles.length twoAdded.firstActive j]? = some p ∧
          p.age < twoAdded.duration) ∧
      (j = twoAdded.activeCount →
        windowIndex twoAdded.particles.length twoAdded.firstActive j = twoAdded.firstFree) :=
  ⟨by decide, by decide, update_retires_front twoAdded 2.1 (by decide) (by decide)⟩

/-- C6. When both cursors index the array and the fuel covers the active
window, `update(dt)` returns a pool in which each slot `(firstActive + k) mod
N`, `k < (firstFree - firstActive) mod N`, holds `Particle.update(dt)` of its
former occupant, distinct `k` naming distinct slots, and every slot outside the
window is unchanged; with `firstActive = firstFree` the array is unchanged. -/
theorem update_integrates_window (pool : ParticlePool α) (dt : α)
    (ha : pool.firstActive < pool.particles.length) (hf : pool.firstFree < pool.particles.length)
    (fuel : Nat) (hfuel : pool.activeCount ≤ fuel) :
    ∃ pool', pool.update fuel dt = .ok pool' ∧
      pool'.particles.length = pool.particles.length ∧
      (∀ k, k < pool.activeCount →
        ∃ p, pool.particles[windowIndex pool.particles.length pool.firstActive k]? = some p ∧
          pool'.particles[windowIndex pool.particles.length pool.firstActive k]? =
            some (p.update dt)) ∧
      (∀ k₁ k₂, k₁ < pool.activeCount → k₂ < pool.activeCount →
        windowIndex pool.particles.length pool.firstActive k₁ =
          windowIndex pool.particles.length pool.firstActive k₂ → k₁ = k₂) ∧
      (∀ i, ¬ inWindow pool.particles.length pool.firstActive pool.firstFree i →
        pool'.particles[i]? = pool.particles[i]?) ∧
      (pool.firstActive = pool.firstFree → pool'.particles = pool.particles) := by
  obtain ⟨ps', j, hlen, hchar, hj, -, -, hok, -⟩ := update_spec pool dt ha hf
  have hcn : pool.activeCount < pool.particles.length := windowCount_lt ha
  refine ⟨_, hok fuel (le_trans hj hfuel), hlen, fun k hk => ?_, fun k₁ k₂ h₁ h₂ h => ?_,
    fun i hi => ?_, fun heq => ?_⟩
  · have hlt : windowIndex pool.particles.length pool.firstActive k < pool.particles.length :=
      windowIndex_lt (by omega)
    refine ⟨_, List.getElem?_eq_getElem hlt, ?_⟩
    show ps'[_]? = _
    rw [hchar, if_pos (inWindow_index hk), List.getElem?_eq_getElem hlt]
    rfl
  · exact windowIndex_injective ha (by omega) (by omega) h
  · show ps'[i]? = _
    rw [hchar, if_neg hi]
  · show ps' = _
    apply List.ext_getElem?
    intro i
    rw [hchar, if_neg]
    rintro ⟨k, hk, -⟩
    rw [(windowCount_eq_zero ha hf).mpr heq] at hk
    omega

/-- Witness of C6: `update(1)` on the pool of three slots that holds two
particles. -/
theorem update_integrates_window_witness :
    twoAdded.firstActive < twoAdded.particles.length ∧
    twoAdded.firstFree < twoAdded.particles.length ∧
    twoAdded.activeCount ≤ 2 ∧
    ∃ pool', twoAdded.update 2 1 = .ok pool' ∧
      pool'.particles.length = twoAdded.particles.length ∧
      (∀ k, k < twoAdded.activeCount →
        ∃ p, twoAdded.particles[windowIndex twoAdded.particles.length twoAdded.firstActive k]? =
            some p ∧
          pool'.particles[windowIndex twoAdded.particles.length twoAdded.firstActive k]? =
            some (p.update 1)) ∧
      (∀ k₁ k₂, k₁ < twoAdded.activeCount → k₂ < twoAdded.activeCount →
        windowIndex twoAdded.particles.length twoAdded.firstActive k₁ =
          windowIndex twoAdded.particles.length twoAdded.firstActive k₂ → k₁ = k₂) ∧
      (∀ i, ¬ inWindow twoAdded.particles.length twoAdded.firstActive twoAdded.firstFree i →
        pool'.particles[i]? = twoAdded.particles[i]?) ∧
      (twoAdded.firstActive = twoAdded.firstFree → pool'.particles = twoAdded.particles) :=
  ⟨by decide, by decide, by decide,
    update_integrates_window twoAdded 1 (by decide) (by decide) 2 (by decide)⟩

/-- C7. On a freshly constructed pool of capacity `n ≥ 1`, any run of `add`
calls, then `update(dt)` with `dt ≥ duration`, then `update(dt')`, all return
(given fuel `n`), and the pool is empty, `firstActive = firstFree`, after the
first `update` already and after the second; this needs neither `duration > 0`
nor `dt' ≥ 0`. -/
theorem update_past_duration_empties (st : Settings α) (n : Nat) (hn : 1 ≤ n)
    (args : List (α × α × α × α)) (dt dt' : α) (hdt : st.duration ≤ dt)
    (fuel : Nat) (hfuel : n ≤ fuel) :
    ∃ p₀ p₁ p₂, addAll st (ParticlePool.new st n) args = .ok p₀ ∧
      p₀.update fuel dt = .ok p₁ ∧ p₁.update fuel dt' = .ok p₂ ∧
      p₁.firstActive = p₁.firstFree ∧ p₂.firstActive = p₂.firstFree := by
  obtain ⟨p₀, h₀, hlen, ha, hf, -, -, hdur, hzero⟩ := addAll_new st n hn args
  rw [← hlen] at ha hf
  obtain ⟨ps₁, j, hlen₁, hchar, hj, -, hyoung, hok, -⟩ := update_spec p₀ dt ha hf
  have hcn : p₀.activeCount < p₀.particles.length := windowCount_lt ha
  have hjc : j = p₀.activeCount := by
    by_contra hne
    have hlt : j < p₀.activeCount := by omega
    have h := hyoung hlt
    rw [ageAt_integrate hchar _ (windowIndex_lt (by omega)), if_pos (inWindow_index hlt),
      hzero, zero_add, hdur] at h
    exact absurd hdt (not_le.mpr h)
  have h₁ := hok fuel (by omega)
  rw [hjc] at h₁
  unfold ParticlePool.activeCount at h₁
  rw [windowIndex_count ha hf] at h₁
  obtain ⟨ps₂, j', -, -, hj', -, -, hok', -⟩ :=
    update_spec ⟨ps₁, p₀.firstFree, p₀.firstFree, p₀.duration⟩ dt'
      (by show p₀.firstFree < ps₁.length; omega) (by show p₀.firstFree < ps₁.length; omega)
  have hj0 : j' = 0 := by
    have h0 : (⟨ps₁, p₀.firstFree, p₀.firstFree, p₀.duration⟩ : ParticlePool α).activeCount = 0 :=
      (windowCount_eq_zero (by show p₀.firstFree < ps₁.length; omega)
        (by show p₀.firstFree < ps₁.length; omega)).mpr rfl
    omega
  have h₂ := hok' fuel (by omega)
  rw [hj0] at h₂
  refine ⟨p₀, _, _, h₀, h₁, h₂, rfl, ?_⟩
  exact windowIndex_zero (by show p₀.firstFree < ps₁.length; omega)

/-- Witness of C7: capacity 3, duration 2, four calls `add(0, 0, 1, 0)`, then
`update(2.1)`, then `update(1)`. -/
theorem update_past_duration_empties_witness :
    1 ≤ 3 ∧ (settings : Settings ℚ).duration ≤ 2.1 ∧ 3 ≤ 3 ∧
    ∃ p₀ p₁ p₂ : ParticlePool ℚ,
      addAll settings (ParticlePool.new settings 3)
        [(0, 0, 1, 0), (0, 0, 1, 0), (0, 0, 1, 0), (0, 0, 1, 0)] = .ok p₀ ∧
      p₀.update 3 2.1 = .ok p₁ ∧ p₁.update 3 1 = .ok p₂ ∧
      p₁.firstActive = p₁.firstFree ∧ p₂.firstActive = p₂.firstFree :=
  ⟨by decide, by norm_num [settings], le_refl 3,
    update_past_duration_empties settings 3 (by decide)
      [(0, 0, 1, 0), (0, 0, 1, 0), (0, 0, 1, 0), (0, 0, 1, 0)] 2.1 1
      (by norm_num [settings]) 3 (le_refl 3)⟩

/-- C8. `Particle.update(dt)` moves the position by `dt` times the velocity
held before the call, moves the velocity by `dt` times the acceleration, adds
`dt` to the age and leaves the acceleration as it was. -/
theorem particle_update_fields (p : Particle α) (dt : α) :
    (p.update dt).position =
        ⟨p.position.x + p.velocity.x * dt, p.position.y + p.velocity.y * dt⟩ ∧
      (p.update dt).velocity =
        ⟨p.velocity.x + p.acceleration.x * dt, p.velocity.y + p.acceleration.y * dt⟩ ∧
      (p.update dt).age = p.age + dt ∧
      (p.update dt).acceleration = p.acceleration :=
  ⟨rfl, rfl, rfl, rfl⟩

/-- C9. `initialize(x, y, dx, dy)` leaves any two particles in the same state:
position `(x, y)`, velocity `(dx, dy)`, acceleration `(dx * effect, dy *
effect)` and age `0`, whatever they held before; the configured `effect` is
`-0.75`. -/
theorem initialise_overwrites (st : Settings α) (p q : Particle α) (x y dx dy : α) :
    p.initialise st x y dx dy = q.initialise st x y dx dy ∧
      p.initialise st x y dx dy =
        { position := ⟨x, y⟩, velocity := ⟨dx, dy⟩,
          acceleration := ⟨dx * st.effect, dy * st.effect⟩, age := 0 } ∧
      (settings : Settings α).effect = -0.75 :=
  ⟨rfl, rfl, rfl⟩

/-- C10. For a duration `D > 0` the opacity that `Particle.draw` stores in
`globalAlpha` is `1 - age / D`: it is `1` at age `0` and `0` at age `D`. -/
theorem draw_opacity (st : Settings α) (p : Particle α) (imageWidth : α)
    (hD : 0 < st.duration) :
    (p.draw st imageWidth).globalAlpha = 1 - p.age / st.duration ∧
      (p.age = 0 → (p.draw st imageWidth).globalAlpha = 1) ∧
      (p.age = st.duration → (p.draw st imageWidth).globalAlpha = 0) := by
  refine ⟨rfl, fun h0 => ?_, fun hd => ?_⟩
  · show 1 - p.age / st.duration = 1
    rw [h0, zero_div, sub_zero]
  · show 1 - p.age / st.duration = 0
    rw [hd, div_self (ne_of_gt hD), sub_self]

/-- Witness of C10: a particle of age `2` drawn under the script's settings
(duration `2`, sprite width `30`). -/
theorem draw_opacity_witness :
    0 < (settings : Settings ℚ).duration ∧
      ((spark.update 2).draw settings 30).globalAlpha = 1 - (spark.update 2).age / settings.duration ∧
      ((spark.update 2).age = 0 → ((spark.update 2).draw settings 30).globalAlpha = 1) ∧
      ((spark.update 2).age = settings.duration →
        ((spark.update 2).draw settings 30).globalAlpha = 0) :=
  ⟨by norm_num [settings], draw_opacity settings (spark.update 2) 30 (by norm_num [settings])⟩

/-- C11, as the code has it. The size at which `Particle.draw` renders the
sprite (both the width and the height it passes to `drawImage`) is `w *
ease(t)` with `t = age / D` and `ease(t) = (t - 1)^3 + 1`, the value of `--t *
t * t + 1`; the sprite is centred on the position. -/
theorem draw_size (st : Settings α) (p : Particle α) (w : α) :
    (p.draw st w).dWidth = w * ease (p.age / st.duration) ∧
      (p.draw st w).dHeight = w * ease (p.age / st.duration) ∧
      ease (p.age / st.duration) = (p.age / st.duration - 1) ^ 3 + 1 ∧
      (p.draw st w).dx = p.position.x - (p.draw st w).dWidth / 2 ∧
      (p.draw st w).dy = p.position.y - (p.draw st w).dHeight / 2 := by
  refine ⟨rfl, rfl, ?_, rfl, rfl⟩
  unfold ease
  ring

/-- Counterexample to C11 as stated: a particle of age `0` is drawn under the
script's settings (duration `2`, sprite width `30`) with size `0`, while `w *
(-(t - 1)^3 + 1)` is `60`. -/
theorem draw_size_at_birth :
    (spark.draw settings 30).dWidth = 0 ∧
      (30 : ℚ) * (-((spark.age / (settings : Settings ℚ).duration - 1) ^ 3) + 1) = 60 ∧
      (spark.draw settings 30).dWidth ≠
        30 * (-((spark.age / (settings : Settings ℚ).duration - 1) ^ 3) + 1) := by
  refine ⟨?_, ?_, ?_⟩ <;>
    norm_num [Particle.draw, ease, spark, Particle.initialise, settings]

/-! ## Vector length over the reals -/

theorem length_nonneg (p : Point ℝ) : 0 ≤ p.length Real.sqrt :=
  Real.sqrt_nonneg _

theorem length_ne_zero_iff (p : Point ℝ) : p.length Real.sqrt ≠ 0 ↔ p.x ≠ 0 ∨ p.y ≠ 0 := by
  unfold Point.length
  rw [Real.sqrt_ne_zero (add_nonneg (mul_self_nonneg _) (mul_self_nonneg _))]
  constructor
  · intro h
    by_contra hc
    push_neg at hc
    rw [hc.1, hc.2] at h
    simp at h
  · intro h hsum
    have hx : p.x * p.x = 0 := by nlinarith [mul_self_nonneg p.x, mul_self_nonneg p.y]
    have hy : p.y * p.y = 0 := by nlinarith [mul_self_nonneg p.x, mul_self_nonneg p.y]
    rcases h with h | h
    · exact h (mul_self_eq_zero.mp hx)
    · exact h (mul_self_eq_zero.mp hy)

theorem lengthTo_length (p : Point ℝ) (m : ℝ) (hp : p.length Real.sqrt ≠ 0) (hm : 0 ≤ m) :
    (p.lengthTo Real.sqrt m).length Real.sqrt = m := by
  have hL : 0 < p.length Real.sqrt := lt_of_le_of_ne (length_nonneg p) (Ne.symm hp)
  have hsq : p.length Real.sqrt * p.length Real.sqrt = p.x * p.x + p.y * p.y :=
    Real.mul_self_sqrt (add_nonneg (mul_self_nonneg _) (mul_self_nonneg _))
  unfold Point.lengthTo Point.normalize
  simp only []
  generalize hg : p.length Real.sqrt = L at hL hsq hp
  unfold Point.length
  have e : p.x / L * m * (p.x / L * m) + p.y / L * m * (p.y / L * m) = m * m := by
    field_simp
    rw [hsq]
    ring
  rw [e]
  exact Real.sqrt_mul_self hm

/-- C12. Over the reals, for a vector `v` whose length is not zero and a
target `m ≥ 0`, the vector that `v.length(m)` returns (normalize, then scale
both coordinates by `m`) has `length()` equal to `m`. -/
theorem length_after_lengthTo (v : Point ℝ) (m : ℝ) (hv : v.length Real.sqrt ≠ 0)
    (hm : 0 ≤ m) : (v.lengthTo Real.sqrt m).length Real.sqrt = m :=
  lengthTo_length v m hv hm

/-- Witness of C12: the vector `(3, 4)` scaled to length `10`. -/
theorem length_after_lengthTo_witness :
    (⟨3, 4⟩ : Point ℝ).length Real.sqrt ≠ 0 ∧ (0 : ℝ) ≤ 10 ∧
      ((⟨3, 4⟩ : Point ℝ).lengthTo Real.sqrt 10).length Real.sqrt = 10 :=
  ⟨(length_ne_zero_iff _).mpr (Or.inl (by norm_num)), by norm_num,
    length_after_lengthTo ⟨3, 4⟩ 10 ((length_ne_zero_iff _).mpr (Or.inl (by norm_num)))
      (by norm_num)⟩

/-! ## The heart curve over the reals -/

theorem heart_x (t : ℝ) : (pointOnHeart Real.sin Real.cos t).x = 160 * Real.sin t ^ 3 :=
  rfl

theorem heart_y (t : ℝ) :
    (pointOnHeart Real.sin Real.cos t).y =
      130 * Real.cos t - 50 * Real.cos (2 * t) - 20 * Real.cos (3 * t) -
        10 * Real.cos (4 * t) + 25 :=
  rfl

theorem heart_y_poly (t : ℝ) :
    (pointOnHeart Real.sin Real.cos t).y =
      -80 * Real.cos t ^ 4 - 80 * Real.cos t ^ 3 - 20 * Real.cos t ^ 2 + 190 * Real.cos t + 65 := by
  have h4 : (4 : ℝ) * t = 2 * (2 * t) := by ring
  rw [heart_y, h4, Real.cos_two_mul (2 * t), Real.cos_three_mul, Real.cos_two_mul]
  ring

theorem heart_y_zero : (pointOnHeart Real.sin Real.cos 0).y = 75 := by
  rw [heart_y_poly, Real.cos_zero]
  norm_num

theorem heart_y_sub (t : ℝ) :
    (pointOnHeart Real.sin Real.cos t).y - 75 =
      (1 - Real.cos t) *
        (80 * Real.cos t ^ 3 + 160 * Real.cos t ^ 2 + 180 * Real.cos t - 10) := by
  rw [heart_y_poly]
  ring

/-- C13. For every real `t`, `pointOnHeart(-t).x = -pointOnHeart(t).x` and
`pointOnHeart(-t).y = pointOnHeart(t).y`. -/
theorem heart_mirror (t : ℝ) :
    (pointOnHeart Real.sin Real.cos (-t)).x = -(pointOnHeart Real.sin Real.cos t).x ∧
      (pointOnHeart Real.sin Real.cos (-t)).y = (pointOnHeart Real.sin Real.cos t).y := by
  constructor
  · rw [heart_x, heart_x, Real.sin_neg]
    ring
  · rw [heart_y, heart_y, mul_neg, mul_neg, mul_neg, Real.cos_neg, Real.cos_neg, Real.cos_neg,
      Real.cos_neg]

/-- C14, as the code has it. `pointOnHeart(0).y = 75` is the bottom of the
cleft of the heart, not its top: `pointOnHeart(t).y ≤ pointOnHeart(0).y` holds
for every `t` with `cos t ≤ 0`, and `pointOnHeart(t).y ≥ pointOnHeart(0).y`
for every `t` with `cos t ≥ 1/10`. -/
theorem heart_y_against_cleft (t : ℝ) :
    (Real.cos t ≤ 0 →
      (pointOnHeart Real.sin Real.cos t).y ≤ (pointOnHeart Real.sin Real.cos 0).y) ∧
    (1 / 10 ≤ Real.cos t →
      (pointOnHeart Real.sin Real.cos 0).y ≤ (pointOnHeart Real.sin Real.cos t).y) := by
  have hsub := heart_y_sub t
  have hlo : -1 ≤ Real.cos t := Real.neg_one_le_cos t
  have hhi : Real.cos t ≤ 1 := Real.cos_le_one t
  rw [heart_y_zero]
  constructor
  · intro hc
    have hg : 80 * Real.cos t ^ 3 + 160 * Real.cos t ^ 2 + 180 * Real.cos t - 10 ≤ 0 := by
      nlinarith [mul_nonneg (neg_nonneg.mpr hc) (sq_nonneg (Real.cos t + 1))]
    nlinarith [mul_nonneg (sub_nonneg.mpr hhi) (neg_nonneg.mpr hg)]
  · intro hc
    have hc0 : 0 ≤ Real.cos t := by linarith
    have hg : 0 ≤ 80 * Real.cos t ^ 3 + 160 * Real.cos t ^ 2 + 180 * Real.cos t - 10 := by
      nlinarith [pow_nonneg hc0 3, pow_nonneg hc0 2]
    nlinarith [mul_nonneg (sub_nonneg.mpr hhi) hg]

/-- Witness of C14 as the code has it: `t = π`, the tip of the heart, lies
below the cleft, and `t = π / 3` lies above it. -/
theorem heart_y_against_cleft_witness :
    Real.cos Real.pi ≤ 0 ∧
      (pointOnHeart Real.sin Real.cos Real.pi).y ≤ (pointOnHeart Real.sin Real.cos 0).y ∧
      1 / 10 ≤ Real.cos (Real.pi / 3) ∧
      (pointOnHeart Real.sin Real.cos 0).y ≤ (pointOnHeart Real.sin Real.cos (Real.pi / 3)).y :=
  ⟨by rw [Real.cos_pi]; norm_num,
    (heart_y_against_cleft Real.pi).1 (by rw [Real.cos_pi]; norm_num),
    by rw [Real.cos_pi_div_three]; norm_num,
    (heart_y_against_cleft (Real.pi / 3)).2 (by rw [Real.cos_pi_div_three]; norm_num)⟩

/-- Counterexample to C14 as stated: `π / 3` lies in `[-π, π]` and
`pointOnHeart(π / 3).y = 140`, above `pointOnHeart(0).y = 75`. -/
theorem heart_y_at_third_pi :
    -Real.pi ≤ Real.pi / 3 ∧ Real.pi / 3 ≤ Real.pi ∧
      (pointOnHeart Real.sin Real.cos (Real.pi / 3)).y = 140 ∧
      (pointOnHeart Real.sin Real.cos 0).y = 75 ∧
      ¬ (pointOnHeart Real.sin Real.cos (Real.pi / 3)).y ≤
        (pointOnHeart Real.sin Real.cos 0).y := by
  have h140 : (pointOnHeart Real.sin Real.cos (Real.pi / 3)).y = 140 := by
    rw [heart_y_poly, Real.cos_pi_div_three]
    norm_num
  refine ⟨by linarith [Real.pi_pos], by linarith [Real.pi_pos], h140, heart_y_zero, ?_⟩
  rw [h140, heart_y_zero]
  norm_num

/-- C15. For every real `t`, `pointOnHeart(t)` is the point `(160 sin³ t,
130 cos t - 50 cos 2t - 20 cos 3t - 10 cos 4t + 25)`, and `pointOnHeart(0)` is
`(0, 75)`. -/
theorem heart_formula (t : ℝ) :
    pointOnHeart Real.sin Real.cos t =
        ⟨160 * Real.sin t ^ 3,
          130 * Real.cos t - 50 * Real.cos (2 * t) - 20 * Real.cos (3 * t) -
            10 * Real.cos (4 * t) + 25⟩ ∧
      pointOnHeart Real.sin Real.cos 0 = ⟨0, 75⟩ := by
  refine ⟨rfl, ?_⟩
  have hx : (pointOnHeart Real.sin Real.cos 0).x = 0 := by
    rw [heart_x, Real.sin_zero]
    norm_num
  have hy := heart_y_zero
  cases h : pointOnHeart Real.sin Real.cos 0 with
  | mk x y =>
    rw [h] at hx hy
    simp only at hx hy
    rw [hx, hy]

theorem clone_eq (p : Point α) : p.clone = p := by
  cases p
  rfl

theorem heart_ne_zero (t : ℝ) :
    (pointOnHeart Real.sin Real.cos t).x ≠ 0 ∨ (pointOnHeart Real.sin Real.cos t).y ≠ 0 := by
  by_cases hx : (pointOnHeart Real.sin Real.cos t).x = 0
  · right
    rw [heart_x] at hx
    have hs : Real.sin t = 0 := by
      have : Real.sin t ^ 3 = 0 := by linarith
      exact pow_eq_zero_iff (by norm_num) |>.mp this
    have hc : Real.cos t ^ 2 = 1 := by
      have := Real.sin_sq_add_cos_sq t
      rw [hs] at this
      linarith
    have hc' : Real.cos t = 1 ∨ Real.cos t = -1 := by
      have hprod : (Real.cos t - 1) * (Real.cos t + 1) = 0 := by linarith [hc, sq (Real.cos t)]
      rcases mul_eq_zero.mp hprod with h | h
      · exact Or.inl (by linarith)
      · exact Or.inr (by linarith)
    rw [heart_y_poly]
    rcases hc' with h | h <;> rw [h] <;> norm_num
  · exact Or.inl hx

/-- C19. For every real `t`, `pointOnHeart(t)` is not the zero vector, so the
length by which `pos.clone().length(velocity)` divides is not zero and the
direction it returns has length exactly the velocity, `100` under the script's
settings; the direction `(dx, dy)` that `render` passes to `add` has that
length for every value of `Math.random()` and every canvas size. -/
theorem spawn_direction_magnitude (t : ℝ) :
    pointOnHeart Real.sin Real.cos t ≠ ⟨0, 0⟩ ∧
      ((pointOnHeart Real.sin Real.cos t).clone).length Real.sqrt ≠ 0 ∧
      (((pointOnHeart Real.sin Real.cos t).clone).lengthTo Real.sqrt
        (settings : Settings ℝ).velocity).length Real.sqrt = 100 ∧
      ∀ canvasWidth canvasHeight random : ℝ,
        Real.sqrt
          ((renderSpawn Real.sqrt Real.sin Real.cos Real.pi settings
              canvasWidth canvasHeight random).2.2.1 *
            (renderSpawn Real.sqrt Real.sin Real.cos Real.pi settings
              canvasWidth canvasHeight random).2.2.1 +
           (renderSpawn Real.sqrt Real.sin Real.cos Real.pi settings
              canvasWidth canvasHeight random).2.2.2 *
            (renderSpawn Real.sqrt Real.sin Real.cos Real.pi settings
              canvasWidth canvasHeight random).2.2.2) = 100 := by
  have hlen : ∀ s : ℝ, ((pointOnHeart Real.sin Real.cos s).clone).length Real.sqrt ≠ 0 := by
    intro s
    rw [clone_eq]
    exact (length_ne_zero_iff _).mpr (heart_ne_zero s)
  have hv : (settings : Settings ℝ).velocity = 100 := rfl
  have hmag : ∀ s : ℝ, (((pointOnHeart Real.sin Real.cos s).clone).lengthTo Real.sqrt
      (settings : Settings ℝ).velocity).length Real.sqrt = 100 := by
    intro s
    rw [hv]
    exact lengthTo_length _ 100 (hlen s) (by norm_num)
  refine ⟨fun h => ?_, hlen t, hmag t, fun W H r => ?_⟩
  · rcases heart_ne_zero t with hx | hy
    · exact hx (by rw [h])
    · exact hy (by rw [h])
  · have := hmag (Real.pi - 2 * Real.pi * r)
    unfold Point.length at this
    simp only [renderSpawn, neg_mul_neg]
    exact this

/-! ## A particle between two calls of `initialize` -/

theorem updateAll_line (e x y dx dy : α) :
    ∀ (dts : List α) (p : Particle α) (c : α),
      p.acceleration = ⟨dx * e, dy * e⟩ →
      p.velocity = ⟨(1 + e * p.age) * dx, (1 + e * p.age) * dy⟩ →
      p.position = ⟨x + c * dx, y + c * dy⟩ →
      (p.updateAll dts).age = p.age + dts.sum ∧
        (p.updateAll dts).velocity =
          ⟨(1 + e * (p.updateAll dts).age) * dx, (1 + e * (p.updateAll dts).age) * dy⟩ ∧
        ∃ c', (p.updateAll dts).position = ⟨x + c' * dx, y + c' * dy⟩ := by
  intro dts
  induction dts with
  | nil =>
    intro p c _ hv hp
    exact ⟨by simp [Particle.updateAll], hv, c, hp⟩
  | cons dt rest ih =>
    intro p c ha hv hp
    have ha' : (p.update dt).acceleration = ⟨dx * e, dy * e⟩ := ha
    have hage : (p.update dt).age = p.age + dt := rfl
    have hv' : (p.update dt).velocity =
        ⟨(1 + e * (p.update dt).age) * dx, (1 + e * (p.update dt).age) * dy⟩ := by
      have h1 : (p.update dt).velocity =
          ⟨p.velocity.x + p.acceleration.x * dt, p.velocity.y + p.acceleration.y * dt⟩ := rfl
      rw [h1, hage, hv, ha]
      congr 1 <;> ring
    have hp' : (p.update dt).position =
        ⟨x + (c + (1 + e * p.age) * dt) * dx, y + (c + (1 + e * p.age) * dt) * dy⟩ := by
      have h1 : (p.update dt).position =
          ⟨p.position.x + p.velocity.x * dt, p.position.y + p.velocity.y * dt⟩ := rfl
      rw [h1, hv, hp]
      congr 1 <;> ring
    obtain ⟨h1, h2, h3⟩ := ih (p.update dt) _ ha' hv' hp'
    refine ⟨?_, h2, h3⟩
    show ((p.update dt).updateAll rest).age = _
    rw [h1, hage, List.sum_cons]
    ring

/-- C20. After `initialize(x, y, dx, dy)` and any finite run of
`update(dt_i)`, the age is the sum of the `dt_i`, the velocity is `(1 + effect
* age) * (dx, dy)`, and the position is `(x, y)` plus a scalar multiple of
`(dx, dy)`. -/
theorem particle_moves_on_line (st : Settings α) (q : Particle α) (x y dx dy : α)
    (dts : List α) :
    ((q.initialise st x y dx dy).updateAll dts).age = dts.sum ∧
      ((q.initialise st x y dx dy).updateAll dts).velocity =
        ⟨(1 + st.effect * ((q.initialise st x y dx dy).updateAll dts).age) * dx,
          (1 + st.effect * ((q.initialise st x y dx dy).updateAll dts).age) * dy⟩ ∧
      ∃ c, ((q.initialise st x y dx dy).updateAll dts).position = ⟨x + c * dx, y + c * dy⟩ := by
  have h0 : (q.initialise st x y dx dy).age = 0 := rfl
  obtain ⟨h1, h2, h3⟩ := updateAll_line st.effect x y dx dy dts (q.initialise st x y dx dy) 0 rfl
    (by
      rw [h0]
      show (⟨dx, dy⟩ : Point α) = _
      congr 1 <;> ring)
    (by
      show (⟨x, y⟩ : Point α) = _
      congr 1 <;> ring)
  refine ⟨?_, h2, h3⟩
  rw [h1, h0, zero_add]

/-! ## Reachable states -/

theorem staggered_reachable : Reachable settings 3 staggered := by
  have h1 : (ParticlePool.new settings 3).add (settings : Settings ℚ) 0 0 1 0 = .ok oneAdded := by
    simp [ParticlePool.add, ParticlePool.new, oneAdded, spark, settings]
  have h2 : oneAdded.update 0 (1 / 2) = .ok oneAged := by
    simp [ParticlePool.update, oneAdded, oneAged, updateSlots, retire, bind, Except.bind, pure,
      Except.pure, spark, Particle.update, Particle.initialise]
    norm_num
  have h3 : oneAged.add (settings : Settings ℚ) 0 0 1 0 = .ok staggered := by
    simp [ParticlePool.add, oneAged, staggered, spark, settings, Particle.initialise,
      Particle.new, Point.new]
  exact Reachable.add 0 0 1 0
    (Reachable.update 0 (1 / 2) (Reachable.add 0 0 1 0 Reachable.fresh h1) (by norm_num) h2) h3

theorem reachableAny_of_reachable {st : Settings α} {n : Nat} {pool : ParticlePool α}
    (h : Reachable st n pool) : ReachableAny st n pool := by
  induction h with
  | fresh => exact ReachableAny.fresh
  | add x y dx dy _ hadd ih => exact ReachableAny.add x y dx dy ih hadd
  | update fuel dt _ _ hupd ih => exact ReachableAny.update fuel dt ih hupd

theorem rewound_reachable : ReachableAny settings 3 rewound := by
  have h : twoAdded.update 0 (-1) = .ok rewound := by
    simp [ParticlePool.update, twoAdded, rewound, updateSlots, retire, bind, Except.bind, pure,
      Except.pure, spark, Particle.update, Particle.initialise]
    norm_num
  exact ReachableAny.update 0 (-1) (reachableAny_of_reachable twoAdded_reachable) h

theorem reachableAny_range {st : Settings α} {n : Nat} (hn : 1 ≤ n) {pool : ParticlePool α}
    (h : ReachableAny st n pool) :
    pool.particles.length = n ∧ pool.firstActive < n ∧ pool.firstFree < n := by
  induction h with
  | fresh => exact ⟨by simp [ParticlePool.new], hn, hn⟩
  | @add pool pool' x y dx dy _ hadd ih =>
    obtain ⟨hlen, ha, hf⟩ := ih
    obtain ⟨p', h', hlen', ha', hf', -, -⟩ := add_count st pool x y dx dy (by omega) (by omega)
    rw [h'] at hadd
    have e : p' = pool' := Except.ok.inj hadd
    subst e
    refine ⟨by omega, by omega, ?_⟩
    rw [hf', hlen]
    exact Nat.mod_lt _ (by omega)
  | @update pool pool' fuel dt _ hupd ih =>
    obtain ⟨hlen, ha, hf⟩ := ih
    obtain ⟨ps', j, hlen', -, -, -, -, hok, hout⟩ := update_spec pool dt (by omega) (by omega)
    rcases Nat.lt_or_ge fuel j with hlt | hge
    · rw [hout fuel hlt] at hupd
      cases hupd
    · rw [hok fuel hge] at hupd
      have e := Except.ok.inj hupd
      subst e
      refine ⟨by show ps'.length = n; omega, ?_, hf⟩
      show windowIndex pool.particles.length pool.firstActive j < n
      rw [hlen]
      exact windowIndex_lt (by omega)

/-- C16. In every state reached from a freshly constructed pool of capacity
`n ≥ 1` by calls of `add` and of `update` with `deltaTime ≥ 0`, the ages of the
particles in the active window do not increase from `firstActive` towards
`firstFree` in circular order, so no particle of the window is older than the
one at `firstActive`. -/
theorem window_ages_sorted (st : Settings α) (n : Nat) (hn : 1 ≤ n)
    (pool : ParticlePool α) (hreach : Reachable st n pool) :
    (∀ k₁ k₂, k₁ ≤ k₂ → k₂ < pool.activeCount →
      ∃ p₁ p₂, pool.particles[windowIndex pool.particles.length pool.firstActive k₁]? = some p₁ ∧
        pool.particles[windowIndex pool.particles.length pool.firstActive k₂]? = some p₂ ∧
        p₂.age ≤ p₁.age) ∧
    (∀ k, k < pool.activeCount →
      ∃ p₀ p, pool.particles[pool.firstActive]? = some p₀ ∧
        pool.particles[windowIndex pool.particles.length pool.firstActive k]? = some p ∧
        p.age ≤ p₀.age) := by
  obtain ⟨⟨ha, hf, -, hs⟩, -, -⟩ := reachable_inv hn hreach
  have hidx : ∀ k, windowIndex pool.particles.length pool.firstActive k < pool.particles.length :=
    fun k => windowIndex_lt (by omega)
  have key : ∀ k₁ k₂, k₁ ≤ k₂ → k₂ < pool.activeCount →
      ∃ p₁ p₂, pool.particles[windowIndex pool.particles.length pool.firstActive k₁]? = some p₁ ∧
        pool.particles[windowIndex pool.particles.length pool.firstActive k₂]? = some p₂ ∧
        p₂.age ≤ p₁.age := by
    intro k₁ k₂ h12 hk
    obtain ⟨p₁, hp₁, e₁⟩ := ageAt_getElem pool.particles _ (hidx k₁)
    obtain ⟨p₂, hp₂, e₂⟩ := ageAt_getElem pool.particles _ (hidx k₂)
    exact ⟨p₁, p₂, hp₁, hp₂, e₁ ▸ e₂ ▸ hs k₁ k₂ h12 hk⟩
  refine ⟨key, fun k hk => ?_⟩
  obtain ⟨p₀, p, h₀, h, hle⟩ := key 0 k (Nat.zero_le k) hk
  rw [windowIndex_zero ha] at h₀
  exact ⟨p₀, p, h₀, h, hle⟩

/-- Witness of C16: in the pool of three slots reached by `add`, `update(1/2)`,
`add`, the second particle of the window is not older than the first. -/
theorem window_ages_sorted_witness :
    1 ≤ 3 ∧ Reachable settings 3 staggered ∧
      ∃ p₁ p₂,
        staggered.particles[windowIndex staggered.particles.length staggered.firstActive 0]? =
          some p₁ ∧
        staggered.particles[windowIndex staggered.particles.length staggered.firstActive 1]? =
          some p₂ ∧
        p₂.age ≤ p₁.age :=
  ⟨by decide, staggered_reachable,
    (window_ages_sorted settings 3 (by decide) staggered staggered_reachable).1 0 1
      (by decide) (by decide)⟩

/-- C17. In every state reached from a freshly constructed pool of capacity
`n ≥ 1` by calls of `add` and of `update` with any `deltaTime`, the array has
`n` slots and both cursors are below `n`; hence `add` returns a pool, and
`update` never reads a slot outside the array: it returns a pool as soon as the
fuel covers the active window. -/
theorem cursors_in_range (st : Settings α) (n : Nat) (hn : 1 ≤ n)
    (pool : ParticlePool α) (hreach : ReachableAny st n pool) :
    pool.particles.length = n ∧ pool.firstActive < n ∧ pool.firstFree < n ∧
      (∀ x y dx dy, ∃ pool', pool.add st x y dx dy = .ok pool') ∧
      (∀ fuel dt, pool.update fuel dt ≠ .error .typeError) ∧
      (∀ fuel dt, pool.activeCount ≤ fuel → ∃ pool', pool.update fuel dt = .ok pool') := by
  obtain ⟨hlen, ha, hf⟩ := reachableAny_range hn hreach
  refine ⟨hlen, ha, hf, fun x y dx dy => ?_, fun fuel dt => ?_, fun fuel dt hfuel => ?_⟩
  · exact ⟨_, add_spec st pool x y dx dy (by omega) (by omega)⟩
  · obtain ⟨ps', j, -, -, -, -, -, hok, hout⟩ := update_spec pool dt (by omega) (by omega)
    rcases Nat.lt_or_ge fuel j with hlt | hge
    · rw [hout fuel hlt]
      intro h
      cases h
    · rw [hok fuel hge]
      intro h
      cases h
  · exact update_total pool dt (by omega) (by omega) fuel hfuel

/-- Witness of C17: the pool of three slots reached by two `add` and
`update(-1)`. -/
theorem cursors_in_range_witness :
    1 ≤ 3 ∧ ReachableAny settings 3 rewound ∧
      rewound.particles.length = 3 ∧ rewound.firstActive < 3 ∧ rewound.firstFree < 3 ∧
      (∀ x y dx dy, ∃ pool', rewound.add settings x y dx dy = .ok pool') ∧
      (∀ fuel dt, rewound.update fuel dt ≠ .error .typeError) ∧
      (∀ fuel dt, rewound.activeCount ≤ fuel → ∃ pool', rewound.update fuel dt = .ok pool') :=
  ⟨by decide, rewound_reachable,
    cursors_in_range settings 3 (by decide) rewound rewound_reachable⟩

/-- C18. When both cursors index the array and the active window holds `c`
particles, `add` returns a pool whose window holds `min (c + 1) (N - 1)`
particles: never more than `N - 1`, and none when `N = 1`. -/
theorem add_active_count (st : Settings α) (pool : ParticlePool α) (x y dx dy : α)
    (ha : pool.firstActive < pool.particles.length) (hf : pool.firstFree < pool.particles.length) :
    ∃ pool', pool.add st x y dx dy = .ok pool' ∧
      pool'.activeCount = min (pool.activeCount + 1) (pool.particles.length - 1) ∧
      pool'.activeCount ≤ pool.particles.length - 1 ∧
      (pool.particles.length = 1 →
        pool'.activeCount = 0 ∧ pool'.firstActive = pool'.firstFree) := by
  obtain ⟨pool', h, hlen, ha', hf', hc, -⟩ := add_count st pool x y dx dy ha hf
  refine ⟨pool', h, hc, by omega, fun h1 => ?_⟩
  have hf0 : pool'.firstFree = 0 := by rw [hf', h1, Nat.mod_one]
  exact ⟨by omega, by omega⟩

/-- Witness of C18: a third `add` on the pool of three slots that holds two
particles leaves two particles in the window. -/
theorem add_active_count_witness :
    twoAdded.firstActive < twoAdded.particles.length ∧
    twoAdded.firstFree < twoAdded.particles.length ∧
    ∃ pool', twoAdded.add settings 5 7 1 0 = .ok pool' ∧
      pool'.activeCount = min (twoAdded.activeCount + 1) (twoAdded.particles.length - 1) ∧
      pool'.activeCount ≤ twoAdded.particles.length - 1 ∧
      (twoAdded.particles.length = 1 →
        pool'.activeCount = 0 ∧ pool'.firstActive = pool'.firstFree) :=
  ⟨by decide, by decide, add_active_count settings twoAdded 5 7 1 0 (by decide) (by decide)⟩

end Love
